import Mathlib

/-!
Verification development for the xtce-rs telemetry decoder.

The Rust sources are shallowly embedded: machine integers become `Nat`/`Int`
with explicit wrapping where the source can wrap, byte slices become
`List Nat` (with the invariant `x < 256` carried as a hypothesis where it
matters), and fallible code returns `Option` (where the only failure is a
Rust panic) or a three-valued result type (where the source distinguishes
recoverable errors from panics).
-/

namespace XtceRs

/-- Byte order flag of the bit buffer (src/bitbuffer.rs, enum ByteOrder). -/
inductive ByteOrder where
  | BigEndian
  | LittleEndian
deriving DecidableEq, Repr

/-- Embedding of `BitBuffer` (src/bitbuffer.rs): a byte slice, a bit position
and a byte order.  Bytes are `Nat` standing for `u8`; theorems that need it
assume every byte is below 256. -/
structure BitBuffer where
  b : List Nat
  position : Nat
  byte_order : ByteOrder
deriving Repr, DecidableEq

/-- `BitBuffer::wrap` (src/bitbuffer.rs). -/
def BitBuffer.wrap (b : List Nat) : BitBuffer :=
  { b := b, position := 0, byte_order := ByteOrder.BigEndian }

/-- `BitBuffer::set_position`. -/
def BitBuffer.set_position (bb : BitBuffer) (position : Nat) : BitBuffer :=
  { bb with position := position }

/-- `BitBuffer::set_byte_order`. -/
def BitBuffer.set_byte_order (bb : BitBuffer) (bo : ByteOrder) : BitBuffer :=
  { bb with byte_order := bo }

/-- `BitBuffer::get_position`. -/
def BitBuffer.get_position (bb : BitBuffer) : Nat := bb.position

/-- `BitBuffer::bitsize`: `self.b.len() * 8`. -/
def BitBuffer.bitsize (bb : BitBuffer) : Nat := bb.b.length * 8

/-- The big-endian byte loop of `BitBuffer::get_bits`: the
`while n > 8` loop followed by the final fringe read
`r = (r << n) | (self.b[byte_pos] >> (8 - n))`.
The `n + 9` pattern is the loop guard `n > 8` (the recursive call then sees
`(n + 9) - 8 = n + 1`); the catch-all is the final read for `n ≤ 8`.
`none` models the Rust index-out-of-bounds panic on `self.b[byte_pos]`. -/
def beLoop (b : List Nat) (r bytePos : Nat) : Nat → Option Nat
  | n + 9 =>
    match b[bytePos]? with
    | none => none
    | some byte => beLoop b ((r <<< 8) ||| byte) (bytePos + 1) (n + 1)
  | n =>
    match b[bytePos]? with
    | none => none
    | some byte => some ((r <<< n) ||| (byte >>> (8 - n)))

/-- The little-endian byte loop of `BitBuffer::get_bits_le`: identical to the
big-endian one except that the byte index decreases. -/
def leLoop (b : List Nat) (r bytePos : Nat) : Nat → Option Nat
  | n + 9 =>
    match b[bytePos]? with
    | none => none
    | some byte => leLoop b ((r <<< 8) ||| byte) (bytePos - 1) (n + 1)
  | n =>
    match b[bytePos]? with
    | none => none
    | some byte => some ((r <<< n) ||| (byte >>> (8 - n)))

/-- Big-endian branch of `BitBuffer::get_bits` (src/bitbuffer.rs lines
100-131).  `fbb = (-(pos as i32) & 0x7)` is rendered as `(8 - pos % 8) % 8`,
the number of bits from `pos` up to the next byte boundary.  A returned pair
is (value, buffer with advanced position); `none` models the panic of an
out-of-bounds byte access. -/
def BitBuffer.get_bits_be (bb : BitBuffer) (num_bits : Nat) : Option (Nat × BitBuffer) :=
  let pos := bb.position
  let byte_pos := pos / 8
  let fbb := (8 - pos % 8) % 8
  if 0 < fbb then
    if num_bits ≤ fbb then
      match bb.b[byte_pos]? with
      | none => none
      | some byte =>
        some ((byte >>> (fbb - num_bits)) &&& (2 ^ num_bits - 1),
          { bb with position := pos + num_bits })
    else
      match bb.b[byte_pos]? with
      | none => none
      | some byte =>
        match beLoop bb.b (byte &&& (2 ^ fbb - 1)) (byte_pos + 1) (num_bits - fbb) with
        | none => none
        | some r => some (r, { bb with position := pos + num_bits })
  else
    match beLoop bb.b 0 byte_pos num_bits with
    | none => none
    | some r => some (r, { bb with position := pos + num_bits })

/-- `BitBuffer::get_bits_le` (src/bitbuffer.rs lines 133-165).
`byte_pos = (pos + num_bits - 1) / 8` is the last byte of the bit window
(read first, it holds the most significant bits) and
`lbb = (pos + num_bits) & 0x7` the number of bits to read from it. -/
def BitBuffer.get_bits_le (bb : BitBuffer) (num_bits : Nat) : Option (Nat × BitBuffer) :=
  let pos := bb.position
  let byte_pos := (pos + num_bits - 1) / 8
  let lbb := (pos + num_bits) % 8
  if 0 < lbb then
    if num_bits ≤ lbb then
      match bb.b[byte_pos]? with
      | none => none
      | some byte =>
        some ((byte >>> (lbb - num_bits)) &&& (2 ^ num_bits - 1),
          { bb with position := pos + num_bits })
    else
      match bb.b[byte_pos]? with
      | none => none
      | some byte =>
        match leLoop bb.b (byte &&& (2 ^ lbb - 1)) (byte_pos - 1) (num_bits - lbb) with
        | none => none
        | some r => some (r, { bb with position := pos + num_bits })
  else
    match leLoop bb.b 0 byte_pos num_bits with
    | none => none
    | some r => some (r, { bb with position := pos + num_bits })

/-- `BitBuffer::get_bits` (src/bitbuffer.rs line 92): panics for
`num_bits > 64` (modelled by `none`), dispatches to the little-endian
variant when the byte order says so, and otherwise extracts big-endian. -/
def BitBuffer.get_bits (bb : BitBuffer) (num_bits : Nat) : Option (Nat × BitBuffer) :=
  if 64 < num_bits then none
  else if bb.byte_order = ByteOrder.LittleEndian then bb.get_bits_le num_bits
  else bb.get_bits_be num_bits

/-- Modelled from the spec: `BitBuffer::get_byte` is absent from
src/bitbuffer.rs (the proc module calls it); per the spec it reads 8 bits
without requiring byte alignment, i.e. it is `get_bits(8)`. -/
def BitBuffer.get_byte (bb : BitBuffer) : Option (Nat × BitBuffer) :=
  bb.get_bits 8

/-- Modelled from the spec: `BitBuffer::remaining_bytes` is absent from
src/bitbuffer.rs; per the spec it is the number of whole bytes between the
current bit position and the end of the buffer. -/
def BitBuffer.remaining_bytes (bb : BitBuffer) : Nat :=
  (bb.bitsize - bb.position) / 8

/-- Modelled from the spec: `BitBuffer::get_bytes_ref(k)` is absent from
src/bitbuffer.rs; per the spec it requires the position to be byte aligned,
returns a borrow of `k` bytes and advances the position by `8 * k`.  `none`
models the panic on misalignment or on running past the buffer end. -/
def BitBuffer.get_bytes_ref (bb : BitBuffer) (len : Nat) : Option (List Nat × BitBuffer) :=
  if bb.position % 8 ≠ 0 then none
  else if bb.b.length < bb.position / 8 + len then none
  else some (((bb.b.drop (bb.position / 8)).take len),
    { bb with position := bb.position + 8 * len })

/-- `BitBuffer::slice` (src/bitbuffer.rs line 78): panics unless the position
is byte aligned (modelled by `none`); returns an independent buffer over the
tail starting at the current byte, with position 0 and the same byte order. -/
def BitBuffer.slice (bb : BitBuffer) : Option BitBuffer :=
  if bb.position % 8 ≠ 0 then none
  else some { b := bb.b.drop (bb.position / 8), position := 0, byte_order := bb.byte_order }

/-- One-step unfolding of `beLoop` in the shape of the Rust loop. -/
theorem beLoop_eq (b : List Nat) (r p n : Nat) :
    beLoop b r p n =
      if 8 < n then
        match b[p]? with
        | none => none
        | some byte => beLoop b ((r <<< 8) ||| byte) (p + 1) (n - 8)
      else
        match b[p]? with
        | none => none
        | some byte => some ((r <<< n) ||| (byte >>> (8 - n))) := by
  rcases Nat.lt_or_ge 8 n with h | h
  · obtain ⟨m, rfl⟩ : ∃ m, n = m + 9 := ⟨n - 9, by omega⟩
    simp [beLoop]
  · interval_cases n <;> simp [beLoop]

/-- One-step unfolding of `leLoop` in the shape of the Rust loop. -/
theorem leLoop_eq (b : List Nat) (r p n : Nat) :
    leLoop b r p n =
      if 8 < n then
        match b[p]? with
        | none => none
        | some byte => leLoop b ((r <<< 8) ||| byte) (p - 1) (n - 8)
      else
        match b[p]? with
        | none => none
        | some byte => some ((r <<< n) ||| (byte >>> (8 - n))) := by
  rcases Nat.lt_or_ge 8 n with h | h
  · obtain ⟨m, rfl⟩ : ∃ m, n = m + 9 := ⟨n - 9, by omega⟩
    simp [leLoop]
  · interval_cases n <;> simp [leLoop]

/-- The big-endian loop fails (a Rust panic) exactly when the bytes it has to
visit run past the end of the buffer; the last visited index is
`p + (n - 1) / 8`. -/
theorem beLoop_none_iff (b : List Nat) :
    ∀ n r p, beLoop b r p n = none ↔ b.length ≤ p + (n - 1) / 8 := by
  intro n
  induction n using Nat.strong_induction_on with
  | _ n ih =>
    intro r p
    rcases Nat.lt_or_ge 8 n with h | h
    · rw [beLoop_eq, if_pos h]
      cases hb : b[p]? with
      | none =>
        have hlen := List.getElem?_eq_none_iff.mp hb
        simp only [true_iff]
        omega
      | some byte =>
        have hlt : p < b.length := by
          by_contra hc
          rw [List.getElem?_eq_none_iff.mpr (by omega)] at hb
          exact Option.noConfusion hb
        rw [ih (n - 8) (by omega)]
        omega
    · rw [beLoop_eq, if_neg (by omega)]
      cases hb : b[p]? with
      | none =>
        have hlen := List.getElem?_eq_none_iff.mp hb
        simp only [true_iff]
        omega
      | some byte =>
        have hlt : p < b.length := by
          by_contra hc
          rw [List.getElem?_eq_none_iff.mpr (by omega)] at hb
          exact Option.noConfusion hb
        simp only [reduceCtorEq, false_iff]
        omega

/-- The little-endian loop fails exactly when its first (largest) byte index
is past the end of the buffer: later indices only decrease. -/
theorem leLoop_none_iff (b : List Nat) :
    ∀ n r p, leLoop b r p n = none ↔ b.length ≤ p := by
  intro n
  induction n using Nat.strong_induction_on with
  | _ n ih =>
    intro r p
    rcases Nat.lt_or_ge 8 n with h | h
    · rw [leLoop_eq, if_pos h]
      cases hb : b[p]? with
      | none =>
        have hlen := List.getElem?_eq_none_iff.mp hb
        simp only [true_iff]
        omega
      | some byte =>
        have hlt : p < b.length := by
          by_contra hc
          rw [List.getElem?_eq_none_iff.mpr (by omega)] at hb
          exact Option.noConfusion hb
        rw [ih (n - 8) (by omega)]
        omega
    · rw [leLoop_eq, if_neg (by omega)]
      cases hb : b[p]? with
      | none =>
        have hlen := List.getElem?_eq_none_iff.mp hb
        simp only [true_iff]
        omega
      | some byte =>
        have hlt : p < b.length := by
          by_contra hc
          rw [List.getElem?_eq_none_iff.mpr (by omega)] at hb
          exact Option.noConfusion hb
        simp only [reduceCtorEq, false_iff]
        omega

/-- A byte obtained from a buffer of `u8` values is below 256. -/
theorem byte_lt_256 {b : List Nat} (hb : ∀ x ∈ b, x < 256) {p byte : Nat}
    (h : b[p]? = some byte) : byte < 256 :=
  hb byte (List.getElem?_mem h)

/-- Accumulator bound for the big-endian loop: starting from `r < 2 ^ k`, a
successful run over `n` more bits stays below `2 ^ (k + n)`. -/
theorem beLoop_lt {b : List Nat} (hb : ∀ x ∈ b, x < 256) :
    ∀ n r p k v, r < 2 ^ k → beLoop b r p n = some v → v < 2 ^ (k + n) := by
  intro n
  induction n using Nat.strong_induction_on with
  | _ n ih =>
    intro r p k v hr hv
    rcases Nat.lt_or_ge 8 n with h | h
    · rw [beLoop_eq, if_pos h] at hv
      cases hb2 : b[p]? with
      | none => rw [hb2] at hv; exact Option.noConfusion hv
      | some byte =>
        rw [hb2] at hv
        have hbyte : byte < 256 := byte_lt_256 hb hb2
        have hr2 : (r <<< 8) ||| byte < 2 ^ (k + 8) := by
          apply Nat.or_lt_two_pow
          · rw [Nat.shiftLeft_eq, pow_add]
            exact mul_lt_mul_of_pos_right hr (by positivity)
          · calc byte < 2 ^ 8 := hbyte
              _ ≤ 2 ^ (k + 8) := Nat.pow_le_pow_right (by norm_num) (by omega)
        have := ih (n - 8) (by omega) _ (p + 1) (k + 8) v hr2 hv
        have he : k + 8 + (n - 8) = k + n := by omega
        rwa [he] at this
    · rw [beLoop_eq, if_neg (by omega)] at hv
      cases hb2 : b[p]? with
      | none => rw [hb2] at hv; exact Option.noConfusion hv
      | some byte =>
        rw [hb2] at hv
        have hbyte : byte < 256 := byte_lt_256 hb hb2
        injection hv with hv
        subst hv
        apply Nat.or_lt_two_pow
        · rw [Nat.shiftLeft_eq, pow_add]
          exact mul_lt_mul_of_pos_right hr (by positivity)
        · rw [Nat.shiftRight_eq_div_pow]
          have : byte < 2 ^ n * 2 ^ (8 - n) := by
            rw [← pow_add]
            have he : n + (8 - n) = 8 := by omega
            rw [he]
            exact hbyte
          calc byte / 2 ^ (8 - n) < 2 ^ n := Nat.div_lt_of_lt_mul (by
              rw [Nat.mul_comm] at this; exact this)
            _ ≤ 2 ^ (k + n) := Nat.pow_le_pow_right (by norm_num) (by omega)

/-- Accumulator bound for the little-endian loop. -/
theorem leLoop_lt {b : List Nat} (hb : ∀ x ∈ b, x < 256) :
    ∀ n r p k v, r < 2 ^ k → leLoop b r p n = some v → v < 2 ^ (k + n) := by
  intro n
  induction n using Nat.strong_induction_on with
  | _ n ih =>
    intro r p k v hr hv
    rcases Nat.lt_or_ge 8 n with h | h
    · rw [leLoop_eq, if_pos h] at hv
      cases hb2 : b[p]? with
      | none => rw [hb2] at hv; exact Option.noConfusion hv
      | some byte =>
        rw [hb2] at hv
        have hbyte : byte < 256 := byte_lt_256 hb hb2
        have hr2 : (r <<< 8) ||| byte < 2 ^ (k + 8) := by
          apply Nat.or_lt_two_pow
          · rw [Nat.shiftLeft_eq, pow_add]
            exact mul_lt_mul_of_pos_right hr (by positivity)
          · calc byte < 2 ^ 8 := hbyte
              _ ≤ 2 ^ (k + 8) := Nat.pow_le_pow_right (by norm_num) (by omega)
        have := ih (n - 8) (by omega) _ (p - 1) (k + 8) v hr2 hv
        have he : k + 8 + (n - 8) = k + n := by omega
        rwa [he] at this
    · rw [leLoop_eq, if_neg (by omega)] at hv
      cases hb2 : b[p]? with
      | none => rw [hb2] at hv; exact Option.noConfusion hv
      | some byte =>
        rw [hb2] at hv
        have hbyte : byte < 256 := byte_lt_256 hb hb2
        injection hv with hv
        subst hv
        apply Nat.or_lt_two_pow
        · rw [Nat.shiftLeft_eq, pow_add]
          exact mul_lt_mul_of_pos_right hr (by positivity)
        · rw [Nat.shiftRight_eq_div_pow]
          have : byte < 2 ^ n * 2 ^ (8 - n) := by
            rw [← pow_add]
            have he : n + (8 - n) = 8 := by omega
            rw [he]
            exact hbyte
          calc byte / 2 ^ (8 - n) < 2 ^ n := Nat.div_lt_of_lt_mul (by
              rw [Nat.mul_comm] at this; exact this)
            _ ≤ 2 ^ (k + n) := Nat.pow_le_pow_right (by norm_num) (by omega)

/-- For a buffer of real bytes, the mask write-back of the single-byte read
is below `2 ^ n`. -/
theorem masked_lt {x n : Nat} : x &&& (2 ^ n - 1) < 2 ^ n :=
  Nat.and_lt_two_pow x (Nat.sub_lt (Nat.two_pow_pos n) one_pos)

/-- Behavior of the big-endian `get_bits` branch: it fails exactly when the
requested window leaves the buffer, and on success the position advances by
`num_bits` and the value fits in `num_bits` bits. -/
theorem get_bits_be_spec (bb : BitBuffer) (n : Nat) (hb : ∀ x ∈ bb.b, x < 256)
    (h1 : 1 ≤ n) :
    (bb.get_bits_be n = none ↔ bb.bitsize < bb.position + n) ∧
    (∀ v bb2, bb.get_bits_be n = some (v, bb2) →
      bb2.position = bb.position + n ∧ v < 2 ^ n) := by
  have hdm := Nat.div_add_mod bb.position 8
  have hm : bb.position % 8 < 8 := Nat.mod_lt _ (by norm_num)
  unfold BitBuffer.get_bits_be BitBuffer.bitsize
  by_cases hf : 0 < (8 - bb.position % 8) % 8
  · rw [if_pos hf]
    by_cases hn : n ≤ (8 - bb.position % 8) % 8
    · rw [if_pos hn]
      split
      next heq =>
        have hlen := List.getElem?_eq_none_iff.mp heq
        exact ⟨⟨fun _ => by omega, fun _ => rfl⟩, fun v bb2 h => Option.noConfusion h⟩
      next byte heq =>
        have hlt : bb.position / 8 < bb.b.length := by
          by_contra hc
          rw [List.getElem?_eq_none_iff.mpr (by omega)] at heq
          exact Option.noConfusion heq
        refine ⟨⟨fun h => Option.noConfusion h, fun h => absurd h (by omega)⟩, ?_⟩
        intro v bb2 h
        rw [Option.some_inj, Prod.mk.injEq] at h
        obtain ⟨rfl, rfl⟩ := h
        exact ⟨rfl, masked_lt⟩
    · rw [if_neg hn]
      split
      next heq =>
        have hlen := List.getElem?_eq_none_iff.mp heq
        exact ⟨⟨fun _ => by omega, fun _ => rfl⟩, fun v bb2 h => Option.noConfusion h⟩
      next byte heq =>
        have hlt : bb.position / 8 < bb.b.length := by
          by_contra hc
          rw [List.getElem?_eq_none_iff.mpr (by omega)] at heq
          exact Option.noConfusion heq
        split
        next heq2 =>
          have hiff := (beLoop_none_iff bb.b _ _ _).mp heq2
          exact ⟨⟨fun _ => by omega, fun _ => rfl⟩, fun v bb2 h => Option.noConfusion h⟩
        next r heq2 =>
          have hniff := beLoop_none_iff bb.b (n - (8 - bb.position % 8) % 8)
            (byte &&& (2 ^ ((8 - bb.position % 8) % 8) - 1)) (bb.position / 8 + 1)
          rw [heq2] at hniff
          have hnn : ¬ (bb.b.length ≤
              bb.position / 8 + 1 + (n - (8 - bb.position % 8) % 8 - 1) / 8) :=
            fun hcon => Option.noConfusion (hniff.mpr hcon)
          have hval : r < 2 ^ ((8 - bb.position % 8) % 8 + (n - (8 - bb.position % 8) % 8)) :=
            beLoop_lt hb _ _ _ _ r masked_lt heq2
          have hexp : (8 - bb.position % 8) % 8 + (n - (8 - bb.position % 8) % 8) = n := by
            omega
          rw [hexp] at hval
          refine ⟨⟨fun h => Option.noConfusion h, fun h => absurd h (by omega)⟩, ?_⟩
          intro v bb2 h
          rw [Option.some_inj, Prod.mk.injEq] at h
          obtain ⟨rfl, rfl⟩ := h
          exact ⟨rfl, hval⟩
  · rw [if_neg hf]
    split
    next heq =>
      have hiff := (beLoop_none_iff bb.b _ _ _).mp heq
      exact ⟨⟨fun _ => by omega, fun _ => rfl⟩, fun v bb2 h => Option.noConfusion h⟩
    next r heq =>
      have hniff := beLoop_none_iff bb.b n 0 (bb.position / 8)
      rw [heq] at hniff
      have hnn : ¬ (bb.b.length ≤ bb.position / 8 + (n - 1) / 8) :=
        fun hcon => Option.noConfusion (hniff.mpr hcon)
      have hval : r < 2 ^ (0 + n) := beLoop_lt hb n 0 _ 0 r (by norm_num) heq
      rw [Nat.zero_add] at hval
      refine ⟨⟨fun h => Option.noConfusion h, fun h => absurd h (by omega)⟩, ?_⟩
      intro v bb2 h
      rw [Option.some_inj, Prod.mk.injEq] at h
      obtain ⟨rfl, rfl⟩ := h
      exact ⟨rfl, hval⟩

/-- Behavior of `get_bits_le`: same contract as the big-endian branch. -/
theorem get_bits_le_spec (bb : BitBuffer) (n : Nat) (hb : ∀ x ∈ bb.b, x < 256)
    (h1 : 1 ≤ n) :
    (bb.get_bits_le n = none ↔ bb.bitsize < bb.position + n) ∧
    (∀ v bb2, bb.get_bits_le n = some (v, bb2) →
      bb2.position = bb.position + n ∧ v < 2 ^ n) := by
  have hdm := Nat.div_add_mod (bb.position + n - 1) 8
  have hdm2 := Nat.div_add_mod (bb.position + n) 8
  have hm : (bb.position + n) % 8 < 8 := Nat.mod_lt _ (by norm_num)
  unfold BitBuffer.get_bits_le BitBuffer.bitsize
  by_cases hf : 0 < (bb.position + n) % 8
  · rw [if_pos hf]
    by_cases hn : n ≤ (bb.position + n) % 8
    · rw [if_pos hn]
      split
      next heq =>
        have hlen := List.getElem?_eq_none_iff.mp heq
        exact ⟨⟨fun _ => by omega, fun _ => rfl⟩, fun v bb2 h => Option.noConfusion h⟩
      next byte heq =>
        have hlt : (bb.position + n - 1) / 8 < bb.b.length := by
          by_contra hc
          rw [List.getElem?_eq_none_iff.mpr (by omega)] at heq
          exact Option.noConfusion heq
        refine ⟨⟨fun h => Option.noConfusion h, fun h => absurd h (by omega)⟩, ?_⟩
        intro v bb2 h
        rw [Option.some_inj, Prod.mk.injEq] at h
        obtain ⟨rfl, rfl⟩ := h
        exact ⟨rfl, masked_lt⟩
    · rw [if_neg hn]
      split
      next heq =>
        have hlen := List.getElem?_eq_none_iff.mp heq
        exact ⟨⟨fun _ => by omega, fun _ => rfl⟩, fun v bb2 h => Option.noConfusion h⟩
      next byte heq =>
        have hlt : (bb.position + n - 1) / 8 < bb.b.length := by
          by_contra hc
          rw [List.getElem?_eq_none_iff.mpr (by omega)] at heq
          exact Option.noConfusion heq
        split
        next heq2 =>
          have hiff := (leLoop_none_iff bb.b _ _ _).mp heq2
          exact ⟨⟨fun _ => by omega, fun _ => rfl⟩, fun v bb2 h => Option.noConfusion h⟩
        next r heq2 =>
          have hval : r < 2 ^ ((bb.position + n) % 8 + (n - (bb.position + n) % 8)) :=
            leLoop_lt hb _ _ _ _ r masked_lt heq2
          have hexp : (bb.position + n) % 8 + (n - (bb.position + n) % 8) = n := by omega
          rw [hexp] at hval
          refine ⟨⟨fun h => Option.noConfusion h, fun h => absurd h (by omega)⟩, ?_⟩
          intro v bb2 h
          rw [Option.some_inj, Prod.mk.injEq] at h
          obtain ⟨rfl, rfl⟩ := h
          exact ⟨rfl, hval⟩
  · rw [if_neg hf]
    split
    next heq =>
      have hiff := (leLoop_none_iff bb.b _ _ _).mp heq
      exact ⟨⟨fun _ => by omega, fun _ => rfl⟩, fun v bb2 h => Option.noConfusion h⟩
    next r heq =>
      have hniff := leLoop_none_iff bb.b n 0 ((bb.position + n - 1) / 8)
      rw [heq] at hniff
      have hnn : ¬ (bb.b.length ≤ (bb.position + n - 1) / 8) :=
        fun hcon => Option.noConfusion (hniff.mpr hcon)
      have hval : r < 2 ^ (0 + n) := leLoop_lt hb n 0 _ 0 r (by norm_num) heq
      rw [Nat.zero_add] at hval
      refine ⟨⟨fun h => Option.noConfusion h, fun h => absurd h (by omega)⟩, ?_⟩
      intro v bb2 h
      rw [Option.some_inj, Prod.mk.injEq] at h
      obtain ⟨rfl, rfl⟩ := h
      exact ⟨rfl, hval⟩

/-- C2: for every BitBuffer (of `u8` bytes) and every `n` with
`1 ≤ n ≤ 64`, if the current position plus `n` exceeds the buffer bit size
then `get_bits(n)` fails (the Rust slice access panics with an
out-of-bounds index, modelled as `none`), and otherwise it returns an
unsigned value right-aligned in a 64-bit word (the value is below `2 ^ n`)
and advances the position by exactly `n`. -/
theorem get_bits_bounds (bb : BitBuffer) (n : Nat) (hb : ∀ x ∈ bb.b, x < 256)
    (h1 : 1 ≤ n) (h64 : n ≤ 64) :
    (bb.get_bits n = none ↔ bb.bitsize < bb.position + n) ∧
    (∀ v bb2, bb.get_bits n = some (v, bb2) →
      bb2.position = bb.position + n ∧ v < 2 ^ n) := by
  unfold BitBuffer.get_bits
  rw [if_neg (by omega)]
  by_cases hbo : bb.byte_order = ByteOrder.LittleEndian
  · rw [if_pos hbo]
    exact get_bits_le_spec bb n hb h1
  · rw [if_neg hbo]
    exact get_bits_be_spec bb n hb h1

/-- Witness for `get_bits_bounds` at a concrete buffer and width. -/
theorem get_bits_bounds_witness :
    (((BitBuffer.mk [0x18, 0x7A] 4 ByteOrder.BigEndian).get_bits 8 = none ↔
      (BitBuffer.mk [0x18, 0x7A] 4 ByteOrder.BigEndian).bitsize <
        (BitBuffer.mk [0x18, 0x7A] 4 ByteOrder.BigEndian).position + 8) ∧
    (∀ v bb2, (BitBuffer.mk [0x18, 0x7A] 4 ByteOrder.BigEndian).get_bits 8 = some (v, bb2) →
      bb2.position = (BitBuffer.mk [0x18, 0x7A] 4 ByteOrder.BigEndian).position + 8 ∧
        v < 2 ^ 8)) :=
  get_bits_bounds (BitBuffer.mk [0x18, 0x7A] 4 ByteOrder.BigEndian) 8
    (by decide) (by decide) (by decide)

/-- C4: the concrete extraction examples on the byte buffer
`18 7A 23 FF`, in big-endian and in little-endian mode (values from the
spec scenarios (A) and (B), matching the unit tests of
src/bitbuffer.rs). -/
theorem get_bits_concrete_examples :
    (((BitBuffer.mk [0x18, 0x7A, 0x23, 0xFF] 0 ByteOrder.BigEndian).get_bits 8).map
        Prod.fst = some 0x18) ∧
    (((BitBuffer.mk [0x18, 0x7A, 0x23, 0xFF] 4 ByteOrder.BigEndian).get_bits 8).map
        Prod.fst = some 0x87) ∧
    (((BitBuffer.mk [0x18, 0x7A, 0x23, 0xFF] 4 ByteOrder.BigEndian).get_bits 12).map
        Prod.fst = some 0x87A) ∧
    (((BitBuffer.mk [0x18, 0x7A, 0x23, 0xFF] 4 ByteOrder.BigEndian).get_bits 20).map
        Prod.fst = some 0x87A23) ∧
    (((BitBuffer.mk [0x18, 0x7A, 0x23, 0xFF] 0 ByteOrder.LittleEndian).get_bits 8).map
        Prod.fst = some 0x18) ∧
    (((BitBuffer.mk [0x18, 0x7A, 0x23, 0xFF] 4 ByteOrder.LittleEndian).get_bits 8).map
        Prod.fst = some 0xA1) ∧
    (((BitBuffer.mk [0x18, 0x7A, 0x23, 0xFF] 0 ByteOrder.LittleEndian).get_bits 16).map
        Prod.fst = some 0x7A18) ∧
    (((BitBuffer.mk [0x18, 0x7A, 0x23, 0xFF] 4 ByteOrder.LittleEndian).get_bits 20).map
        Prod.fst = some 0x237A1) ∧
    (((BitBuffer.mk [0x18, 0x7A, 0x23, 0xFF] 0 ByteOrder.LittleEndian).get_bits 32).map
        Prod.fst = some 0xFF237A18) := by
  decide

/-! ## Runtime values (src/value.rs) -/

/-- `EnumeratedValue` (src/value.rs): key plus label.  Rust strings are
modelled throughout as their byte lists. -/
structure EnumeratedValue where
  key : Int
  value : List Nat
deriving Repr

/-- `Value` (src/value.rs): the tagged union of runtime values.  `Double`
carries a Lean `Float` for `f64`; `Aggregate` models the
`HashMap<NameIdx, Value>` as an association list in member order (no theorem
below compares aggregates). -/
inductive Value where
  | Int64 (v : Int)
  | Uint64 (v : Nat)
  | Double (v : Float)
  | Boolean (v : Bool)
  | StringValue (s : List Nat)
  | Enumerated (e : EnumeratedValue)
  | Binary (b : List Nat)
  | Aggregate (m : List (Nat × Value))

/-- `Value::int_value` (src/value.rs lines 45-61): values of 64 bits and
more pass unrestricted, otherwise the value is saturated to
`[-(2 ^ (num_bits - 1)), 2 ^ (num_bits - 1) - 1]` (`y >= max` clamps to
`max`, then `y < min` clamps to `min`).  The source computes
`1 << (num_bits - 1)` on `i64`, an overflowing-shift panic for
`num_bits = 0`; all theorems below assume `1 ≤ num_bits`. -/
def Value.int_value (num_bits : Nat) (x : Int) : Value :=
  if 64 ≤ num_bits then Value.Int64 x
  else
    let max : Int := 2 ^ (num_bits - 1) - 1
    let min : Int := -max - 1
    let y1 : Int := if max ≤ x then max else x
    let y2 : Int := if y1 < min then min else y1
    Value.Int64 y2

/-- `Value::uint_value` (src/value.rs lines 63-75). -/
def Value.uint_value (num_bits : Nat) (x : Nat) : Value :=
  if 64 ≤ num_bits then Value.Uint64 x
  else
    let max : Nat := 2 ^ num_bits - 1
    Value.Uint64 (if max < x then max else x)

/-- C8: for `1 ≤ n < 64`, `Value::int_value(n, x)` is an `Int64` lying in
`[-2 ^ (n - 1), 2 ^ (n - 1) - 1]` and equal to `x` whenever `x` lies in that
range, and `Value::uint_value(n, x)` is a `Uint64` lying in
`[0, 2 ^ n - 1]` and equal to `x` whenever `x` lies in that range; for
`n ≥ 64` the input is returned unrestricted. -/
theorem value_sizing (n : Nat) (x : Int) (u : Nat) (h1 : 1 ≤ n) (h64 : n < 64) :
    (∃ y : Int, Value.int_value n x = Value.Int64 y ∧
      -(2 ^ (n - 1) : Int) ≤ y ∧ y ≤ 2 ^ (n - 1) - 1 ∧
      (-(2 ^ (n - 1) : Int) ≤ x → x ≤ 2 ^ (n - 1) - 1 → y = x)) ∧
    (∃ w : Nat, Value.uint_value n u = Value.Uint64 w ∧ w ≤ 2 ^ n - 1 ∧
      (u ≤ 2 ^ n - 1 → w = u)) ∧
    (∀ m : Nat, 64 ≤ m →
      Value.int_value m x = Value.Int64 x ∧ Value.uint_value m u = Value.Uint64 u) := by
  refine ⟨?_, ?_, ?_⟩
  · unfold Value.int_value
    rw [if_neg (by omega)]
    have hM : (0 : Int) < 2 ^ (n - 1) := by positivity
    refine ⟨_, rfl, ?_, ?_, ?_⟩ <;> dsimp only <;> split_ifs <;> omega
  · unfold Value.uint_value
    rw [if_neg (by omega)]
    have hM : (0 : Nat) < 2 ^ n := Nat.two_pow_pos n
    refine ⟨_, rfl, ?_, ?_⟩ <;> dsimp only <;> split_ifs <;> omega
  · intro m hm
    unfold Value.int_value Value.uint_value
    rw [if_pos (by omega), if_pos (by omega)]
    exact ⟨rfl, rfl⟩

/-- Witness for `value_sizing` at `n = 8`, `x = 5`, `u = 300`. -/
theorem value_sizing_witness :
    (∃ y : Int, Value.int_value 8 5 = Value.Int64 y ∧
      -(2 ^ (8 - 1) : Int) ≤ y ∧ y ≤ 2 ^ (8 - 1) - 1 ∧
      (-(2 ^ (8 - 1) : Int) ≤ 5 → (5 : Int) ≤ 2 ^ (8 - 1) - 1 → y = 5)) ∧
    (∃ w : Nat, Value.uint_value 8 300 = Value.Uint64 w ∧ w ≤ 2 ^ 8 - 1 ∧
      (300 ≤ 2 ^ 8 - 1 → w = 300)) ∧
    (∀ m : Nat, 64 ≤ m →
      Value.int_value m 5 = Value.Int64 5 ∧ Value.uint_value m 300 = Value.Uint64 300) :=
  value_sizing 8 5 300 (by decide) (by decide)

/-! ## MDB data model (src/mdb/mod.rs, src/mdb/types.rs)

`Index` (a `NonZeroU32` storing index + 1 in the source) is modelled by the
logical index it denotes, a plain `Nat`.  Name handles (`NameIdx`) are also
`Nat`.  Metadata never read by the decoder (descriptions, units, alarms,
data sources) is omitted from the embedded records. -/

/-- `MdbError` (src/error.rs) together with the `DecodingError` and
`MissingValue` variants that the proc modules use (the snapshot of
src/error.rs predates them; they are listed in the spec error taxonomy).
The human-readable message strings are not modelled. -/
inductive MdbError where
  | OutOfBounds
  | NoDataTypeAvailable
  | InvalidMdb
  | InvalidValue
  | OutOfRange
  | DecodingError
  | MissingValue
deriving DecidableEq, Repr

/-- Outcome of embedded Rust code that may return `Err` or panic:
`crash` models panics (`todo!()`, out-of-bounds indexing, `unwrap`),
which the Rust type system does not surface in the return type. -/
inductive PResult (α : Type) where
  | crash
  | error (e : MdbError)
  | ok (v : α)

/-- `PathElement` (src/mdb/types.rs): optional member name plus array
indices. -/
structure PathElement where
  name : Option Nat
  index : List Nat
deriving Repr, DecidableEq

/-- `MemberPath` (src/mdb/types.rs). -/
abbrev MemberPath := List PathElement

/-- `ParameterInstanceRef` (src/mdb/mod.rs lines 334-340). -/
structure ParameterInstanceRef where
  pidx : Nat
  member_path : Option MemberPath
  instance_ : Int
  use_calibrated_value : Bool
deriving Repr, DecidableEq

/-- Linear adjustment of a dynamic value (spec 4.6a: `y = x*slope +
intercept`); the struct itself is absent from the snapshot. -/
structure LinearAdjustment where
  slope : Float
  intercept : Float

/-- `DynamicValueType` as used by src/proc/mod.rs (`para_ref` plus optional
linear adjustment; the snapshot of src/mdb carries an empty placeholder
struct, the fields are taken from the proc usage and the spec). -/
structure DynamicValueType where
  para_ref : ParameterInstanceRef
  adjustment : Option LinearAdjustment

/-- Modelled from the spec: the string size policy `StringSize`
(spec 3: Fixed(bits) | LeadingSize(tag_bytes) | TerminationChar(byte) |
Custom), as consumed by src/proc/encodings.rs. -/
inductive StringSize where
  | Fixed (bits : Nat)
  | LeadingSize (tag_bytes : Nat)
  | TerminationChar (byte : Nat)
  | Custom

/-- Modelled from the spec: the string box policy `StringBoxSize`
(spec 3: Undefined | Fixed(bits) | Dynamic(ref)), as consumed by
src/proc/encodings.rs. -/
inductive StringBoxSize where
  | Undefined
  | Fixed (bits : Nat)
  | Dynamic (dv : DynamicValueType)

/-- `StringDataEncoding` in the form consumed by src/proc/encodings.rs
(`size_in_bits`, `box_size_in_bits`, `max_box_size_in_bytes`, `encoding`;
the charset name is byte-modelled like every string). -/
structure StringDataEncoding where
  size_in_bits : StringSize
  box_size_in_bits : StringBoxSize
  max_box_size_in_bytes : Option Nat
  encoding : List Nat

/-- `IntegerEncodingType` (src/mdb/types.rs). -/
inductive IntegerEncodingType where
  | Unsigned
  | TwosComplement
  | SignMagnitude
  | OnesComplement
deriving DecidableEq, Repr

/-- `IntegerDataEncoding` (src/mdb/types.rs). -/
structure IntegerDataEncoding where
  size_in_bits : Nat
  encoding : IntegerEncodingType
  byte_order : ByteOrder
deriving Repr

/-- `FloatEncodingType` (src/mdb/types.rs). -/
inductive FloatEncodingType where
  | IEEE754_1985
  | Milstd1750a
deriving DecidableEq, Repr

/-- `FloatDataEncoding` with the `byte_order` field used by
src/proc/encodings.rs (absent from the snapshot of src/mdb/types.rs). -/
structure FloatDataEncoding where
  size_in_bits : Nat
  encoding : FloatEncodingType
  byte_order : ByteOrder
deriving Repr

/-- `DataEncoding` (src/mdb/types.rs).  The `Binary` and `Boolean` payload
structs have no fields and are dropped. -/
inductive DataEncoding where
  | None
  | Binary
  | Boolean
  | Float (e : FloatDataEncoding)
  | Integer (e : IntegerDataEncoding)
  | String (e : StringDataEncoding)

/-- `ValueEnumeration` (src/mdb/types.rs): label for the inclusive range
`[value, max_value]`. -/
structure ValueEnumeration where
  value : Int
  max_value : Int
  label : List Nat
deriving Repr, DecidableEq

/-- `Calibrator` (src/mdb/types.rs): `pub enum Calibrator \x7b\x7d`, an empty
enum with no inhabitants. -/
inductive Calibrator where

/-- `IntegerDataType` (src/mdb/types.rs), alarms omitted. -/
structure IntegerDataType where
  size_in_bits : Nat
  signed : Bool
deriving Repr, DecidableEq

/-- `FloatDataType` (src/mdb/types.rs), alarms omitted. -/
structure FloatDataType where
  size_in_bits : Nat
deriving Repr, DecidableEq

/-- `BooleanDataType` (src/mdb/types.rs). -/
structure BooleanDataType where
  one_string_value : List Nat
  zero_string_value : List Nat
deriving Repr, DecidableEq

/-- `EnumeratedDataType` (src/mdb/types.rs), alarms omitted. -/
structure EnumeratedDataType where
  enumeration : List ValueEnumeration
deriving Repr, DecidableEq

/-- `BinaryDataType` (src/mdb/types.rs). -/
structure BinaryDataType where
  size_in_bits : Nat
deriving Repr, DecidableEq

/-- `Member` (src/mdb/types.rs): member name handle and data type index. -/
structure Member where
  name : Nat
  dtype : Nat
deriving Repr, DecidableEq

/-- `AggregateDataType` (src/mdb/types.rs). -/
structure AggregateDataType where
  members : List Member
deriving Repr, DecidableEq

/-- `IntegerValue` (src/mdb/mod.rs). -/
inductive IntegerValue where
  | FixedValue (v : Int)
  | DynamicValue (dv : DynamicValueType)

/-- `ArrayDataType` (src/mdb/types.rs). -/
structure ArrayDataType where
  dtype : Nat
  dim : List IntegerValue

/-- `TypeData` (src/mdb/types.rs). -/
inductive TypeData where
  | Integer (t : IntegerDataType)
  | Float (t : FloatDataType)
  | String
  | Binary (t : BinaryDataType)
  | Boolean (t : BooleanDataType)
  | Enumerated (t : EnumeratedDataType)
  | Aggregate (t : AggregateDataType)
  | Array (t : ArrayDataType)
  | AbsoluteTime

/-- `DataType` (src/mdb/types.rs): name, encoding, type data, optional
calibrator (`Calibrator` being empty, the option is always `none`). -/
structure DataType where
  name : Nat
  encoding : DataEncoding
  type_data : TypeData
  calibrator : Option Calibrator

/-- `Parameter` (src/mdb/mod.rs): name and optional data type index
(`data_source` omitted). -/
structure Parameter where
  name : Nat
  ptype : Option Nat
deriving Repr, DecidableEq

/-- `ReferenceLocationType` (src/mdb/mod.rs). -/
inductive ReferenceLocationType where
  | ContainerStart
  | PreviousEntry
deriving DecidableEq, Repr

/-- `LocationInContainerInBits` (src/mdb/mod.rs). -/
structure LocationInContainerInBits where
  reference_location : ReferenceLocationType
  location_in_bits : Int
deriving Repr, DecidableEq

/-- `ContainerEntryData` (src/mdb/mod.rs); the indirect and array payload
structs have no fields and are dropped. -/
inductive ContainerEntryData where
  | ParameterRef (pidx : Nat)
  | ContainerRef (cidx : Nat)
  | IndirectParameterRef
  | ArrayParameterRef
deriving DecidableEq, Repr

/-- `ContainerEntry` (src/mdb/mod.rs). -/
structure ContainerEntry where
  location_in_container : Option LocationInContainerInBits
  include_condition : Option Nat
  data : ContainerEntryData
deriving Repr, DecidableEq

/-- `SequenceContainer` (src/mdb/mod.rs): base container with optional
restriction criteria index, abstract flag, entries and own index. -/
structure SequenceContainer where
  name : Nat
  base_container : Option (Nat × Option Nat)
  abstract_ : Bool
  entries : List ContainerEntry
  idx : Nat
deriving Repr, DecidableEq

/-- `ComparisonOperator` (src/mdb/mod.rs). -/
inductive ComparisonOperator where
  | Equality
  | Inequality
  | LargerThan
  | LargerOrEqualThan
  | SmallerThan
  | SmallerOrEqualThan
deriving DecidableEq, Repr

/-- `Comparison` (src/mdb/mod.rs): parameter instance, operator and the
literal value string. -/
structure Comparison where
  param_instance : ParameterInstanceRef
  comparison_operator : ComparisonOperator
  value : List Nat
deriving Repr, DecidableEq

/-- `MatchCriteria` (src/mdb/mod.rs). -/
inductive MatchCriteria where
  | Comparison (c : Comparison)
  | ComparisonList (cs : List Comparison)
deriving Repr, DecidableEq

/-- `MissionDatabase` (src/mdb/mod.rs), restricted to the entity tables the
decoder reads (space systems and the name interner are modelled separately
for the qualified-name claims).  `child_containers` models the
`HashMap<ContainerIdx, Vec<ContainerIdx>>` as an association list. -/
structure MissionDatabase where
  parameter_types : List DataType
  parameters : List Parameter
  containers : List SequenceContainer
  match_criteria : List MatchCriteria
  child_containers : List (Nat × List Nat)

/-- `MissionDatabase::get_parameter`: total in the source (indexing panics
on an invalid index, modelled by `none`). -/
def MissionDatabase.get_parameter (mdb : MissionDatabase) (idx : Nat) : Option Parameter :=
  mdb.parameters[idx]?

/-- `MissionDatabase::get_data_type`. -/
def MissionDatabase.get_data_type (mdb : MissionDatabase) (idx : Nat) : Option DataType :=
  mdb.parameter_types[idx]?

/-- `MissionDatabase::get_container`. -/
def MissionDatabase.get_container (mdb : MissionDatabase) (idx : Nat) :
    Option SequenceContainer :=
  mdb.containers[idx]?

/-- `mdb.child_containers.get(&idx)` (src/proc/containers.rs line 66). -/
def MissionDatabase.child_containers_of (mdb : MissionDatabase) (idx : Nat) :
    Option (List Nat) :=
  (mdb.child_containers.find? (fun p => p.1 == idx)).map (fun p => p.2)

/-! ## Helper conversions used by calibration (src/proc/types.rs).

The float-valued branches use Lean `Float`; they are executable but no
theorem below evaluates them. -/

/-- Decimal digits of a natural number as ASCII bytes (`u64::to_string`). -/
def natDigits (n : Nat) : List Nat := (Nat.toDigits 10 n).map Char.toNat

/-- `i64::to_string` as ASCII bytes. -/
def intToString (i : Int) : List Nat :=
  if i < 0 then 45 :: natDigits i.natAbs else natDigits i.natAbs

/-- `f64::to_string` as ASCII bytes (via the runtime float printer). -/
def floatToString (x : Float) : List Nat := x.toString.toList.map Char.toNat

/-- Rust `x as i64` on `f64`: truncation toward zero saturating to the
`i64` range, NaN to 0.  The saturation boundary uses float comparison; the
decoder claims never evaluate this function. -/
def floatToI64Sat (x : Float) : Int :=
  if x.isNaN then 0
  else if x ≤ Float.ofInt (-(2 ^ 63)) then -(2 ^ 63)
  else if Float.ofInt (2 ^ 63 - 1) ≤ x then 2 ^ 63 - 1
  else if x < 0 then -(Int.ofNat (Float.toUInt64 (Float.neg x)).toNat)
  else Int.ofNat (Float.toUInt64 x).toNat

/-- Rust `x as u64` on `f64`: truncation saturating to `[0, 2^64-1]`,
NaN to 0. -/
def floatToU64Sat (x : Float) : Nat :=
  if x.isNaN then 0
  else if x ≤ 0 then 0
  else (Float.toUInt64 x).toNat

/-- Rust `rv as i64` on a `u64` value: a wrapping reinterpretation. -/
def u64AsI64 (rv : Nat) : Int :=
  if rv < 2 ^ 63 then Int.ofNat rv else Int.ofNat rv - 2 ^ 64

/-- ASCII bytes of the fallback label "UNDEF". -/
def strUNDEF : List Nat := [85, 78, 68, 69, 70]

/-! ## Calibration (src/proc/types.rs) -/

/-- `get_enumeration` (src/proc/types.rs lines 213-221): first enumeration
entry whose inclusive range contains the value, else label "UNDEF". -/
def get_enumeration (edt : EnumeratedDataType) (rv : Int) : EnumeratedValue :=
  match edt.enumeration.find? (fun e => decide (e.value ≤ rv) && decide (rv ≤ e.max_value)) with
  | some e => { key := rv, value := e.label }
  | none => { key := rv, value := strUNDEF }

/-- `from_signed_integer` (src/proc/types.rs lines 82-111).  The `_ctx`
argument of the source is unused and dropped.  The calibrator branch is
`todo!()` (and unreachable, `Calibrator` being uninhabited). -/
def from_signed_integer (v : Int) (dt : DataType) : PResult Value :=
  match dt.calibrator with
  | some _ => PResult.crash
  | none =>
    match dt.type_data with
    | TypeData.Integer idt =>
      let bitsize := idt.size_in_bits
      if idt.signed then
        PResult.ok (Value.int_value bitsize v)
      else
        let v1 : Nat := if v < 0 then 0 else v.toNat
        PResult.ok (Value.uint_value bitsize v1)
    | TypeData.Float _ => PResult.ok (Value.Double (Float.ofInt v))
    | TypeData.String => PResult.ok (Value.StringValue (intToString v))
    | TypeData.Boolean _ => PResult.ok (Value.Boolean (v != 0))
    | TypeData.Enumerated edt => PResult.ok (Value.Enumerated (get_enumeration edt v))
    | TypeData.AbsoluteTime => PResult.crash
    | _ => PResult.error MdbError.InvalidValue

/-- `from_unsigned_integer` (src/proc/types.rs lines 114-145).  Note: in the
signed branch the source clamps the raw value at `i64::MAX` and then calls
`Value::uint_value` (not `int_value`). -/
def from_unsigned_integer (rv : Nat) (dt : DataType) : PResult Value :=
  match dt.calibrator with
  | some _ => PResult.crash
  | none =>
    match dt.type_data with
    | TypeData.Integer idt =>
      let bitsize := idt.size_in_bits
      if idt.signed then
        if 2 ^ 63 - 1 < rv then
          PResult.ok (Value.uint_value bitsize (2 ^ 63 - 1))
        else
          PResult.ok (Value.uint_value bitsize rv)
      else
        PResult.ok (Value.uint_value bitsize rv)
    | TypeData.Float _ => PResult.ok (Value.Double (Float.ofNat rv))
    | TypeData.String => PResult.ok (Value.StringValue (natDigits rv))
    | TypeData.Boolean _ => PResult.ok (Value.Boolean (rv != 0))
    | TypeData.Enumerated edt => PResult.ok (Value.Enumerated (get_enumeration edt (u64AsI64 rv)))
    | TypeData.AbsoluteTime => PResult.crash
    | _ => PResult.error MdbError.InvalidValue

/-- `from_double` (src/proc/types.rs lines 150-178). -/
def from_double (rv : Float) (dt : DataType) : PResult Value :=
  match dt.calibrator with
  | some _ => PResult.crash
  | none =>
    match dt.type_data with
    | TypeData.Integer idt =>
      if idt.signed then
        PResult.ok (Value.int_value idt.size_in_bits (floatToI64Sat rv))
      else
        PResult.ok (Value.uint_value idt.size_in_bits (floatToU64Sat rv))
    | TypeData.Float _ => PResult.ok (Value.Double rv)
    | TypeData.String => PResult.ok (Value.StringValue (floatToString rv))
    | TypeData.Boolean _ => PResult.ok (Value.Boolean (!(rv == 0.0)))
    | TypeData.Enumerated edt =>
      PResult.ok (Value.Enumerated (get_enumeration edt (floatToI64Sat rv)))
    | TypeData.AbsoluteTime => PResult.crash
    | _ => PResult.error MdbError.InvalidValue

/-- `from_string` (src/proc/types.rs lines 226-241): every non-string
target is `todo!()`. -/
def from_string (rv : List Nat) (dt : DataType) : PResult Value :=
  match dt.type_data with
  | TypeData.String => PResult.ok (Value.StringValue rv)
  | _ => PResult.crash

mutual

/-- `calibrate` (src/proc/types.rs lines 65-80) and `from_aggregate`
(lines 180-210), mutually recursive through aggregate members.  The `fuel`
argument bounds the recursion depth through the type graph (the source
recursion is unbounded; exhausting fuel is modelled as divergence).
`from_aggregate_members` is the `for m in &atype.members` loop. -/
def calibrate : Nat → Value → DataType → MissionDatabase → PResult Value
  | 0, _, _, _ => PResult.crash
  | fuel + 1, rawv, dt, mdb =>
    match rawv with
    | Value.Int64 v => from_signed_integer v dt
    | Value.Uint64 v => from_unsigned_integer v dt
    | Value.Double v => from_double v dt
    | Value.Boolean _ => PResult.crash
    | Value.StringValue v => from_string v dt
    | Value.Binary _ => PResult.crash
    | Value.Aggregate m => from_aggregate fuel m dt mdb
    | Value.Enumerated _ => PResult.crash

/-- See `calibrate`. -/
def from_aggregate : Nat → List (Nat × Value) → DataType → MissionDatabase → PResult Value
  | 0, _, _, _ => PResult.crash
  | fuel + 1, aggr, dt, mdb =>
    match dt.type_data with
    | TypeData.Aggregate atype =>
      match from_aggregate_members fuel aggr atype.members mdb with
      | PResult.crash => PResult.crash
      | PResult.error e => PResult.error e
      | PResult.ok l => PResult.ok (Value.Aggregate l)
    | _ => PResult.error MdbError.InvalidValue

/-- See `calibrate`. -/
def from_aggregate_members :
    Nat → List (Nat × Value) → List Member → MissionDatabase → PResult (List (Nat × Value))
  | 0, _, _, _ => PResult.crash
  | _ + 1, _, [], _ => PResult.ok []
  | fuel + 1, aggr, m :: rest, mdb =>
    match aggr.find? (fun p => p.1 == m.name) with
    | none => PResult.error MdbError.InvalidValue
    | some p =>
      match mdb.get_data_type m.dtype with
      | none => PResult.crash
      | some dtype =>
        match calibrate fuel p.2 dtype mdb with
        | PResult.crash => PResult.crash
        | PResult.error e => PResult.error e
        | PResult.ok ev =>
          match from_aggregate_members fuel aggr rest mdb with
          | PResult.crash => PResult.crash
          | PResult.error e => PResult.error e
          | PResult.ok l => PResult.ok ((m.name, ev) :: l)

end

/-- C3 (evaluation of the code at the failing input): calibrating the
unsigned raw value 200 against a signed 8-bit integer target type yields
`Uint64 200`.  The signed branch of `from_unsigned_integer` calls
`Value::uint_value`, so the engineering value is an unsigned value clamped
to `[0, 255]` — not, as the claim and the spec coercion matrix state, a
signed value saturated into `[-128, 127]` (which would be `Int64 127`
here).  The sibling conversions `from_signed_integer` and `from_double`
do call `Value::int_value` for signed targets, and the guard
`rv > i64::MAX` in this branch only makes sense before a conversion to
`i64`, so the spec describes the evident intent and the code is a slip. -/
theorem from_unsigned_integer_signed_slip :
    from_unsigned_integer 200
      { name := 0, encoding := DataEncoding.None,
        type_data := TypeData.Integer { size_in_bits := 8, signed := true },
        calibrator := none } = PResult.ok (Value.Uint64 200) := rfl

/-! ## Parameter value list (src/pvlist.rs) -/

/-- `ParameterValue` (src/value.rs). -/
structure ParameterValue where
  pidx : Nat
  raw_value : Value
  eng_value : Value

/-- `ParameterValueList` (src/pvlist.rs): ordered entries plus a map from
parameter index to the most recent entry.  The map is modelled by searching
from the end, which has the same observable behavior. -/
structure ParameterValueList where
  entries : List ParameterValue

/-- `ParameterValueList::new`. -/
def ParameterValueList.new : ParameterValueList := { entries := [] }

/-- `ParameterValueList::push`. -/
def ParameterValueList.push (l : ParameterValueList) (pv : ParameterValue) :
    ParameterValueList :=
  { entries := l.entries ++ [pv] }

/-- `ParameterValueList::last_inserted`. -/
def ParameterValueList.last_inserted (l : ParameterValueList) (pidx : Nat) :
    Option ParameterValue :=
  l.entries.reverse.find? (fun pv => pv.pidx == pidx)

/-- `ParameterValueList::len`. -/
def ParameterValueList.len (l : ParameterValueList) : Nat := l.entries.length

/-- `get_member_value` (src/mdb/utils.rs lines 112-136).  The outer `none`
is the `todo!()` panic on array indices; `some none` is "member not
found". -/
def get_member_value : Value → MemberPath → Option (Option Value)
  | v, [] => some (some v)
  | v, pe :: rest =>
    let step1 : Option (Option Value) :=
      match pe.name with
      | some name =>
        match v with
        | Value.Aggregate m =>
          match m.find? (fun p => p.1 == name) with
          | some p => some (some p.2)
          | none => some none
        | _ => some none
      | none => some (some v)
    match step1 with
    | none => none
    | some none => some none
    | some (some v2) =>
      if pe.index.isEmpty then get_member_value v2 rest else none

/-- `ProcCtx::get_param_value` (src/proc/mod.rs lines 112-127): `none`
models the `todo!()` panics for `instance != 0` and raw-value references;
`some none` means the parameter has no value in the current context. -/
def get_param_value (result : ParameterValueList) (para_ref : ParameterInstanceRef) :
    Option (Option Value) :=
  if para_ref.instance_ != 0 then none
  else if !para_ref.use_calibrated_value then none
  else
    match result.last_inserted para_ref.pidx with
    | none => some none
    | some pv =>
      match para_ref.member_path with
      | some path => get_member_value pv.eng_value path
      | none => some (some pv.eng_value)

/-! ## Criteria evaluation (src/proc/criteria_evaluator.rs) -/

/-- `MatchResult` (src/proc/criteria_evaluator.rs lines 26-35). -/
inductive MatchResult where
  | OK
  | NOK
  | UNDEF
  | ERROR
deriving DecidableEq, Repr

mutual

/-- The derived `PartialEq` of `Value` (src/value.rs); `Double` compares
with IEEE float equality, the aggregate map compares as the modelled
association list. -/
def valueEq : Value → Value → Bool
  | Value.Int64 a, Value.Int64 b => a == b
  | Value.Uint64 a, Value.Uint64 b => a == b
  | Value.Double a, Value.Double b => a == b
  | Value.Boolean a, Value.Boolean b => a == b
  | Value.StringValue a, Value.StringValue b => a == b
  | Value.Enumerated a, Value.Enumerated b => (a.key == b.key) && (a.value == b.value)
  | Value.Binary a, Value.Binary b => a == b
  | Value.Aggregate a, Value.Aggregate b => valueListEq a b
  | _, _ => false

/-- Member-wise equality of aggregate association lists. -/
def valueListEq : List (Nat × Value) → List (Nat × Value) → Bool
  | [], [] => true
  | (n1, v1) :: t1, (n2, v2) :: t2 => n1 == n2 && valueEq v1 v2 && valueListEq t1 t2
  | _, _ => false

end

/-- `std::mem::discriminant` comparison of two values. -/
def sameKind : Value → Value → Bool
  | Value.Int64 _, Value.Int64 _ => true
  | Value.Uint64 _, Value.Uint64 _ => true
  | Value.Double _, Value.Double _ => true
  | Value.Boolean _, Value.Boolean _ => true
  | Value.StringValue _, Value.StringValue _ => true
  | Value.Enumerated _, Value.Enumerated _ => true
  | Value.Binary _, Value.Binary _ => true
  | Value.Aggregate _, Value.Aggregate _ => true
  | _, _ => false

/-- `check_equals` specialised by `compare_equal`: OK on equality, NOK
otherwise. -/
def boolMatch (b : Bool) : MatchResult :=
  if b then MatchResult.OK else MatchResult.NOK

/-- `compare_equal` (src/proc/criteria_evaluator.rs lines 133-153): same
discriminant compares directly; the listed cross-type pairs widen
(signed/unsigned to `i128`, integer/double to `f64`, string against the
enumerated label); every other pair is `todo!()` (`none`). -/
def compare_equal (x y : Value) : Option MatchResult :=
  if sameKind x y then some (boolMatch (valueEq x y))
  else
    match x, y with
    | Value.Int64 a, Value.Uint64 b => some (boolMatch (a == Int.ofNat b))
    | Value.Uint64 a, Value.Int64 b => some (boolMatch (Int.ofNat a == b))
    | Value.Int64 a, Value.Double b => some (boolMatch (Float.ofInt a == b))
    | Value.Double a, Value.Int64 b => some (boolMatch (a == Float.ofInt b))
    | Value.Uint64 a, Value.Double b => some (boolMatch (Float.ofNat a == b))
    | Value.Double a, Value.Uint64 b => some (boolMatch (a == Float.ofNat b))
    | Value.StringValue a, Value.Enumerated b => some (boolMatch (a == b.value))
    | Value.Enumerated a, Value.StringValue b => some (boolMatch (a.value == b))
    | _, _ => none

/-- `compare_values` (src/proc/criteria_evaluator.rs lines 192-211) at
`i128` (Lean `Int`). -/
def compare_values_int (op : ComparisonOperator) (x y : Int) : MatchResult :=
  boolMatch (match op with
    | ComparisonOperator.Equality => x == y
    | ComparisonOperator.Inequality => x != y
    | ComparisonOperator.LargerThan => decide (y < x)
    | ComparisonOperator.LargerOrEqualThan => decide (y ≤ x)
    | ComparisonOperator.SmallerThan => decide (x < y)
    | ComparisonOperator.SmallerOrEqualThan => decide (x ≤ y))

/-- `compare_values` at `f64`. -/
def compare_values_float (op : ComparisonOperator) (x y : Float) : MatchResult :=
  boolMatch (match op with
    | ComparisonOperator.Equality => x == y
    | ComparisonOperator.Inequality => x != y
    | ComparisonOperator.LargerThan => decide (y < x)
    | ComparisonOperator.LargerOrEqualThan => decide (y ≤ x)
    | ComparisonOperator.SmallerThan => decide (x < y)
    | ComparisonOperator.SmallerOrEqualThan => decide (x ≤ y))

/-- Byte-lexicographic ordering of Rust strings. -/
def listCompare : List Nat → List Nat → Ordering
  | [], [] => Ordering.eq
  | [], _ :: _ => Ordering.lt
  | _ :: _, [] => Ordering.gt
  | a :: t1, b :: t2 =>
    if a < b then Ordering.lt else if b < a then Ordering.gt else listCompare t1 t2

/-- `compare_values` at `&str` (string against enumerated label). -/
def compare_values_str (op : ComparisonOperator) (x y : List Nat) : MatchResult :=
  boolMatch (match op with
    | ComparisonOperator.Equality => listCompare x y == Ordering.eq
    | ComparisonOperator.Inequality => listCompare x y != Ordering.eq
    | ComparisonOperator.LargerThan => listCompare x y == Ordering.gt
    | ComparisonOperator.LargerOrEqualThan => listCompare x y != Ordering.lt
    | ComparisonOperator.SmallerThan => listCompare x y == Ordering.lt
    | ComparisonOperator.SmallerOrEqualThan => listCompare x y != Ordering.gt)

/-- `compare` (src/proc/criteria_evaluator.rs lines 171-190); pairs not in
the list are `todo!()`. -/
def compare (op : ComparisonOperator) (x y : Value) : Option MatchResult :=
  match x, y with
  | Value.Int64 a, Value.Int64 b => some (compare_values_int op a b)
  | Value.Int64 a, Value.Uint64 b => some (compare_values_int op a (Int.ofNat b))
  | Value.Uint64 a, Value.Uint64 b => some (compare_values_int op (Int.ofNat a) (Int.ofNat b))
  | Value.Uint64 a, Value.Int64 b => some (compare_values_int op (Int.ofNat a) b)
  | Value.Double a, Value.Double b => some (compare_values_float op a b)
  | Value.Int64 a, Value.Double b => some (compare_values_float op (Float.ofInt a) b)
  | Value.Double a, Value.Int64 b => some (compare_values_float op a (Float.ofInt b))
  | Value.Uint64 a, Value.Double b => some (compare_values_float op (Float.ofNat a) b)
  | Value.Double a, Value.Uint64 b => some (compare_values_float op a (Float.ofNat b))
  | Value.StringValue a, Value.Enumerated b => some (compare_values_str op a b.value)
  | Value.Enumerated a, Value.StringValue b => some (compare_values_str op a.value b)
  | _, _ => none

/-- The comparison evaluators built by compilation:
`RefEqualValueEvaluator` (optimised equality) and `RefValueEvaluator`
(any other operator). -/
inductive CompEvaluator where
  | refEqual (left : ParameterInstanceRef) (right : Value)
  | refValue (left : ParameterInstanceRef) (op : ComparisonOperator) (right : Value)

/-- The compiled evaluator shapes.  The source stores
`Box<dyn CriteriaEvaluator>` trait objects; compilation
(`from_comparison`, `from_comparison_list`) only ever produces a bare
comparison evaluator or an `AndEvaluator`/`OrEvaluator` over comparison
evaluators, and the embedding fixes exactly those shapes. -/
inductive CEvaluator where
  | comp (c : CompEvaluator)
  | and (l : List CompEvaluator)
  | or (l : List CompEvaluator)

/-- Evaluation of the two comparison evaluators
(src/proc/criteria_evaluator.rs lines 122-131 and 160-169): a missing
parameter value yields UNDEF; `none` propagates the panics of
`get_param_value`/`compare`. -/
def evalComp : CompEvaluator → ParameterValueList → Option MatchResult
  | CompEvaluator.refEqual left right, result =>
    match get_param_value result left with
    | none => none
    | some none => some MatchResult.UNDEF
    | some (some v) => compare_equal v right
  | CompEvaluator.refValue left op right, result =>
    match get_param_value result left with
    | none => none
    | some none => some MatchResult.UNDEF
    | some (some v) => compare op v right

/-- `AndEvaluator::evaluate` (src/proc/criteria_evaluator.rs lines
110-119): returns NOK at the first sub-result that is not OK — also when
that sub-result is UNDEF or ERROR — and OK when every sub-result is OK. -/
def evalAnd : List CompEvaluator → ParameterValueList → Option MatchResult
  | [], _ => some MatchResult.OK
  | m :: rest, result =>
    match evalComp m result with
    | none => none
    | some r =>
      if r != MatchResult.OK then some MatchResult.NOK else evalAnd rest result

/-- `OrEvaluator::evaluate` (src/proc/criteria_evaluator.rs lines
99-108): OK at the first OK sub-result, NOK otherwise. -/
def evalOr : List CompEvaluator → ParameterValueList → Option MatchResult
  | [], _ => some MatchResult.NOK
  | m :: rest, result =>
    match evalComp m result with
    | none => none
    | some r =>
      if r == MatchResult.OK then some MatchResult.OK else evalOr rest result

/-- `CriteriaEvaluator::evaluate` over the compiled shapes. -/
def CEvaluator.evaluate : CEvaluator → ParameterValueList → Option MatchResult
  | CEvaluator.comp c, result => evalComp c result
  | CEvaluator.and l, result => evalAnd l result
  | CEvaluator.or l, result => evalOr l result

/-- C1 counterexample: a ComparisonList evaluator whose single comparison
references a parameter with no value in the context evaluates to NOK, not
to UNDEF or ERROR: `AndEvaluator::evaluate` turns every non-OK sub-result
(including UNDEF) into NOK, while the claim requires UNDEF here and
requires that an undefined referenced parameter never yields NOK.  The
last conjunct shows the referenced parameter indeed has no value in the
(empty) context. -/
theorem and_evaluator_undef_collapse :
    CEvaluator.evaluate
        (CEvaluator.and [CompEvaluator.refEqual
          { pidx := 0, member_path := none, instance_ := 0, use_calibrated_value := true }
          (Value.Uint64 1)])
        ParameterValueList.new = some MatchResult.NOK ∧
    MatchResult.NOK ≠ MatchResult.UNDEF ∧
    MatchResult.NOK ≠ MatchResult.ERROR ∧
    get_param_value ParameterValueList.new
      { pidx := 0, member_path := none, instance_ := 0, use_calibrated_value := true } =
        some none :=
  ⟨rfl, by decide, by decide, rfl⟩

/-- C1 amended: the compiled ComparisonList evaluator is the AndEvaluator,
which returns OK when every sub-comparison returns OK and NOK at the first
sub-result different from OK — UNDEF and ERROR sub-results also collapse
to NOK; a bare comparison evaluator whose referenced parameter has no
value in the context returns UNDEF (for both the equality and the generic
operator evaluator). -/
theorem and_evaluator_semantics :
    (∀ l result, CEvaluator.evaluate (CEvaluator.and l) result = evalAnd l result) ∧
    (∀ (l : List CompEvaluator) result,
      (∀ m ∈ l, evalComp m result = some MatchResult.OK) →
      evalAnd l result = some MatchResult.OK) ∧
    (∀ (l1 : List CompEvaluator) (m : CompEvaluator) (l2 : List CompEvaluator) result r,
      (∀ m1 ∈ l1, evalComp m1 result = some MatchResult.OK) →
      evalComp m result = some r → r ≠ MatchResult.OK →
      evalAnd (l1 ++ m :: l2) result = some MatchResult.NOK) ∧
    (∀ left right op result, get_param_value result left = some none →
      evalComp (CompEvaluator.refEqual left right) result = some MatchResult.UNDEF ∧
      evalComp (CompEvaluator.refValue left op right) result = some MatchResult.UNDEF) := by
  refine ⟨fun l result => rfl, ?_, ?_, ?_⟩
  · intro l result h
    induction l with
    | nil => rfl
    | cons m rest ih =>
      unfold evalAnd
      rw [h m (List.mem_cons_self m rest)]
      simp only [bne_self_eq_false, if_false]
      exact ih (fun m1 hm1 => h m1 (List.mem_cons_of_mem m hm1))
  · intro l1 m l2 result r h hm hr
    induction l1 with
    | nil =>
      rw [List.nil_append]
      unfold evalAnd
      rw [hm]
      have hb : (r != MatchResult.OK) = true := by
        simp only [bne_iff_ne, ne_eq]
        exact hr
      simp [hb]
    | cons m1 rest ih =>
      rw [List.cons_append]
      unfold evalAnd
      rw [h m1 (List.mem_cons_self m1 rest)]
      simp only [bne_self_eq_false, if_false]
      exact ih (fun m2 hm2 => h m2 (List.mem_cons_of_mem m1 hm2))
  · intro left right op result h
    constructor
    · simp only [evalComp]
      rw [h]
    · simp only [evalComp]
      rw [h]

/-- Witness for `and_evaluator_semantics` at a concrete list and empty
context: the single comparison evaluates to UNDEF, and the AND of it
evaluates to NOK. -/
theorem and_evaluator_semantics_witness :
    evalAnd ([] ++ CompEvaluator.refEqual
        { pidx := 0, member_path := none, instance_ := 0, use_calibrated_value := true }
        (Value.Uint64 1) :: []) ParameterValueList.new = some MatchResult.NOK :=
  and_evaluator_semantics.2.2.1 []
    (CompEvaluator.refEqual
      { pidx := 0, member_path := none, instance_ := 0, use_calibrated_value := true }
      (Value.Uint64 1))
    [] ParameterValueList.new MatchResult.UNDEF
    (by intro m1 hm1; exact absurd hm1 (List.not_mem_nil m1))
    rfl
    (by decide)

/-! ## Name interner and qualified names (src/mdb/mod.rs) -/

/-- The name interner (`NameDb`, a lasso `ThreadedRodeo` in the source):
modelled as the list of interned strings in handle order, a handle being
the position.  The interner property that distinct handles hold distinct
strings is the `Nodup` hypothesis of the round-trip theorem. -/
structure NameDb where
  strings : List (List Nat)
deriving Repr, DecidableEq

/-- `ThreadedRodeo::try_resolve`: the string of a handle. -/
def NameDb.try_resolve (db : NameDb) (idx : Nat) : Option (List Nat) :=
  db.strings[idx]?

/-- First index holding `s` (the interner lookup order). -/
def nameGet (s : List Nat) : List (List Nat) → Option Nat
  | [] => none
  | t :: rest => if t == s then some 0 else (nameGet s rest).map (· + 1)

/-- `ThreadedRodeo::get`: the handle of an already-interned string. -/
def NameDb.get (db : NameDb) (s : List Nat) : Option Nat :=
  nameGet s db.strings

/-- ASCII bytes of the `"[unknown]"` placeholder used by
`QualifiedName::to_string` for stale handles. -/
def strUnknown : List Nat := [91, 117, 110, 107, 110, 111, 119, 110, 93]

/-- `QualifiedName::to_string` (src/mdb/mod.rs lines 91-107): `"/"` for the
root, otherwise each component prefixed by `"/"` (byte 47). -/
def qn_to_string (db : NameDb) (qn : List Nat) : List Nat :=
  if qn.length == 0 then [47]
  else qn.foldl (fun r idx => r ++ [47] ++ ((db.try_resolve idx).getD strUnknown)) []

/-- Rust `str::split('/')` on byte strings: split at every 47, keeping
empty segments (`""` gives `[""]`, `"/"` gives `["", ""]`). -/
def splitSlash : List Nat → List (List Nat)
  | [] => [[]]
  | c :: rest =>
    if c == 47 then [] :: splitSlash rest
    else
      match splitSlash rest with
      | [] => [[c]]
      | h :: t => (c :: h) :: t

/-- The `for p in qnstr.split("/")` loop of `QualifiedName::from_str`:
ignore empty segments, look the others up, fail on the first unknown one. -/
def qn_from_str_go (db : NameDb) : List (List Nat) → Option (List Nat)
  | [] => some []
  | p :: rest =>
    if p.isEmpty then qn_from_str_go db rest
    else
      match db.get p with
      | some idx => (qn_from_str_go db rest).map (fun t => idx :: t)
      | none => none

/-- `QualifiedName::from_str` (src/mdb/mod.rs lines 112-126). -/
def qn_from_str (db : NameDb) (s : List Nat) : Option (List Nat) :=
  qn_from_str_go db (splitSlash s)

/-- `splitSlash` never returns the empty list of segments. -/
theorem splitSlash_ne_nil (s : List Nat) : splitSlash s ≠ [] := by
  cases s with
  | nil => simp [splitSlash]
  | cons c rest =>
    unfold splitSlash
    split
    · simp
    · split <;> simp

/-- Splitting after a leading slash starts with an empty segment. -/
theorem splitSlash_cons_slash (s : List Nat) :
    splitSlash (47 :: s) = [] :: splitSlash s := by
  simp [splitSlash]

/-- Prepending a slash-free chunk extends the first segment of a split. -/
theorem splitSlash_append (n : List Nat) (s : List Nat) (hn : 47 ∉ n) :
    ∃ h t, splitSlash s = h :: t ∧ splitSlash (n ++ s) = (n ++ h) :: t := by
  induction n with
  | nil =>
    cases hs : splitSlash s with
    | nil => exact absurd hs (splitSlash_ne_nil s)
    | cons h t => exact ⟨h, t, rfl, by simpa using hs⟩
  | cons c n ih =>
    have hc : c ≠ 47 := fun hcv => hn (by simp [hcv])
    obtain ⟨h, t, hs, hns⟩ := ih (fun hm => hn (List.mem_cons_of_mem c hm))
    refine ⟨h, t, hs, ?_⟩
    rw [List.cons_append]
    unfold splitSlash
    rw [if_neg (by simpa using hc), hns]
    rfl

/-- In a duplicate-free interner, the handle of an interned string is the
position it was resolved from. -/
theorem nameGet_of_getElem {l : List (List Nat)} (hnd : l.Nodup) :
    ∀ i s, l[i]? = some s → nameGet s l = some i := by
  induction l with
  | nil => intro i s h; simp at h
  | cons t rest ih =>
    intro i s h
    cases i with
    | zero =>
      simp at h
      subst h
      simp [nameGet]
    | succ i =>
      have hrest : rest[i]? = some s := by simpa using h
      have hmem : s ∈ rest := List.getElem?_mem hrest
      have hne : t ≠ s := fun hts => (List.nodup_cons.mp hnd).1 (hts ▸ hmem)
      unfold nameGet
      rw [if_neg (by simpa using hne)]
      rw [ih (List.nodup_cons.mp hnd).2 i s hrest]
      rfl

/-- The fold of `QualifiedName::to_string` is the flattening of the
slash-prefixed components. -/
theorem qn_fold_eq (f : Nat → List Nat) :
    ∀ (qn : List Nat) (r : List Nat),
      qn.foldl (fun r idx => r ++ [47] ++ f idx) r =
        r ++ (qn.map (fun idx => 47 :: f idx)).flatten := by
  intro qn
  induction qn with
  | nil => intro r; simp
  | cons i qn ih =>
    intro r
    simp only [List.foldl_cons, List.map_cons, List.flatten_cons]
    rw [ih]
    simp [List.append_assoc]

/-- Parsing the rendering of a component list whose names are nonempty,
slash-free and interned recovers the list. -/
theorem qn_parse_render (db : NameDb) (nm : Nat → List Nat) :
    ∀ qn : List Nat,
      (∀ i ∈ qn, nm i ≠ [] ∧ 47 ∉ nm i ∧ db.get (nm i) = some i) →
      qn_from_str_go db (splitSlash ((qn.map (fun i => 47 :: nm i)).flatten)) = some qn := by
  intro qn
  induction qn with
  | nil => intro _; rfl
  | cons i qn ih =>
    intro hok
    obtain ⟨hne, hfree, hget⟩ := hok i (List.mem_cons_self i qn)
    have hok2 : ∀ j ∈ qn, nm j ≠ [] ∧ 47 ∉ nm j ∧ db.get (nm j) = some j :=
      fun j hj => hok j (List.mem_cons_of_mem i hj)
    simp only [List.map_cons, List.flatten_cons, List.cons_append]
    rw [splitSlash_cons_slash]
    obtain ⟨h, t, hs, hns⟩ := splitSlash_append (nm i)
      ((qn.map (fun j => 47 :: nm j)).flatten) hfree
    rw [hns]
    have hih := ih hok2
    rw [hs] at hih
    have hh : h = [] := by
      cases qn with
      | nil =>
        simp only [List.map_nil, List.flatten_nil] at hs
        have : ([[]] : List (List Nat)) = h :: t := by
          rw [← hs]
          rfl
        exact (List.cons_eq_cons.mp this).1.symm
      | cons j qn2 =>
        simp only [List.map_cons, List.flatten_cons, List.cons_append] at hs
        rw [splitSlash_cons_slash] at hs
        exact (List.cons_eq_cons.mp hs).1.symm
    subst hh
    rw [List.append_nil]
    show qn_from_str_go db ([] :: nm i :: t) = some (i :: qn)
    unfold qn_from_str_go
    rw [if_pos (by simp)]
    unfold qn_from_str_go
    rw [if_neg (by simpa using hne), hget]
    have ht : qn_from_str_go db t = some qn := by
      have := hih
      unfold qn_from_str_go at this
      simpa using this
    rw [ht]
    rfl

/-- Parsing fails exactly when some nonempty segment is not interned. -/
theorem qn_from_str_go_none (db : NameDb) :
    ∀ parts : List (List Nat),
      (qn_from_str_go db parts = none ↔
        ∃ p ∈ parts, p ≠ [] ∧ db.get p = none) := by
  intro parts
  induction parts with
  | nil => simp [qn_from_str_go]
  | cons p rest ih =>
    unfold qn_from_str_go
    by_cases hp : p.isEmpty
    · rw [if_pos hp]
      rw [ih]
      constructor
      · rintro ⟨q, hq, hqe, hqn⟩
        exact ⟨q, List.mem_cons_of_mem p hq, hqe, hqn⟩
      · rintro ⟨q, hq, hqe, hqn⟩
        rcases List.mem_cons.mp hq with hq1 | hq2
        · subst hq1
          exact absurd (List.isEmpty_iff.mp hp) hqe
        · exact ⟨q, hq2, hqe, hqn⟩
    · rw [if_neg hp]
      have hpe : p ≠ [] := fun hc => hp (by simp [hc])
      cases hg : db.get p with
      | none =>
        exact ⟨fun _ => ⟨p, List.mem_cons_self p rest, hpe, hg⟩, fun _ => rfl⟩
      | some idx =>
        cases hr : qn_from_str_go db rest with
        | none =>
          refine ⟨fun _ => ?_, fun _ => rfl⟩
          obtain ⟨q, hq, hqe, hqn⟩ := ih.mp hr
          exact ⟨q, List.mem_cons_of_mem p hq, hqe, hqn⟩
        | some t =>
          constructor
          · intro hcon
            exact absurd hcon (by simp)
          · rintro ⟨q, hq, hqe, hqn⟩
            exfalso
            rcases List.mem_cons.mp hq with hq1 | hq2
            · subst hq1
              rw [hg] at hqn
              exact Option.noConfusion hqn
            · have hnone : qn_from_str_go db rest = none := ih.mpr ⟨q, hq2, hqe, hqn⟩
              rw [hr] at hnone
              exact Option.noConfusion hnone

/-- C9 counterexample: the interner always holds the empty string (the
root space system name interned by `MissionDatabase::new`), and a
qualified name whose component resolves to the empty string does not
round-trip: it renders as "/" and parses back to the root (the empty
qualified name), not to the original. -/
theorem qualified_name_roundtrip_counterexample :
    qn_from_str (NameDb.mk [[]]) (qn_to_string (NameDb.mk [[]]) [0]) = some [] ∧
    ([] : List Nat) ≠ [0] :=
  ⟨rfl, by decide⟩

/-- C9 amended: in a duplicate-free interner, a qualified name whose
components all resolve to nonempty slash-free strings parses back from its
string form to the original; and parsing ignores empty segments and
returns `none` exactly when some nonempty segment of the input is not
present in the interner. -/
theorem qualified_name_roundtrip (db : NameDb) (qn : List Nat)
    (hnodup : db.strings.Nodup)
    (hcomp : ∀ i ∈ qn, ∃ s, db.try_resolve i = some s ∧ s ≠ [] ∧ 47 ∉ s) :
    qn_from_str db (qn_to_string db qn) = some qn ∧
    (∀ s, qn_from_str db s = none ↔
      ∃ p ∈ splitSlash s, p ≠ [] ∧ db.get p = none) := by
  constructor
  · cases qn with
    | nil => rfl
    | cons i qn2 =>
      unfold qn_to_string
      rw [if_neg (by simp)]
      rw [qn_fold_eq]
      rw [List.nil_append]
      unfold qn_from_str
      exact qn_parse_render db _ (i :: qn2) (by
        intro j hj
        obtain ⟨s, hres, hne, hfree⟩ := hcomp j hj
        refine ⟨?_, ?_, ?_⟩
        · rw [hres]; simpa using hne
        · rw [hres]; simpa using hfree
        · rw [hres]
          simp only [Option.getD_some]
          exact nameGet_of_getElem hnodup j s hres)
  · intro s
    exact qn_from_str_go_none db (splitSlash s)

/-- Witness for `qualified_name_roundtrip` on a small concrete interner. -/
theorem qualified_name_roundtrip_witness :
    qn_from_str (NameDb.mk [[], [97], [98, 99]])
      (qn_to_string (NameDb.mk [[], [97], [98, 99]]) [1, 2]) = some [1, 2] ∧
    (∀ s, qn_from_str (NameDb.mk [[], [97], [98, 99]]) s = none ↔
      ∃ p ∈ splitSlash s, p ≠ [] ∧ (NameDb.mk [[], [97], [98, 99]]).get p = none) :=
  qualified_name_roundtrip (NameDb.mk [[], [97], [98, 99]]) [1, 2]
    (by decide)
    (by
      intro i hi
      rcases List.mem_cons.mp hi with h1 | h2
      · subst h1; exact ⟨[97], rfl, by decide, by decide⟩
      · have : i = 2 := by simpa using h2
        subst this; exact ⟨[98, 99], rfl, by decide, by decide⟩)

/-! ## Literal parsing and evaluator compilation
(src/mdb/types.rs, src/proc/criteria_evaluator.rs, src/proc/mod.rs) -/

/-- Decimal digit accumulation for `str::parse`. -/
def parseDigitsAux (acc : Nat) : List Nat → Option Nat
  | [] => some acc
  | c :: rest =>
    if 48 ≤ c ∧ c ≤ 57 then parseDigitsAux (acc * 10 + (c - 48)) rest else none

/-- `str::parse::<i128>`: optional sign, at least one digit, all digits,
result within the `i128` range (`none` is the `ParseIntError`). -/
def parseI128 (s : List Nat) : Option Int :=
  match s with
  | [] => none
  | 43 :: rest =>
    match rest with
    | [] => none
    | _ =>
      match parseDigitsAux 0 rest with
      | some m => if m ≤ 2 ^ 127 - 1 then some (Int.ofNat m) else none
      | none => none
  | 45 :: rest =>
    match rest with
    | [] => none
    | _ =>
      match parseDigitsAux 0 rest with
      | some m => if m ≤ 2 ^ 127 then some (-(Int.ofNat m)) else none
      | none => none
  | _ =>
    match parseDigitsAux 0 s with
    | some m => if m ≤ 2 ^ 127 - 1 then some (Int.ofNat m) else none
    | none => none

/-- `parse_integer` (src/mdb/types.rs lines 182-199): parse as `i128`,
range-check against the declared width, produce a signed or unsigned
value.  (For `size_in_bits = 0` the source shift underflows and panics;
no claim evaluates that corner.) -/
def parse_integer (value : List Nat) (signed : Bool) (size_in_bits : Nat) : PResult Value :=
  match parseI128 value with
  | none => PResult.error MdbError.InvalidValue
  | some x =>
    let max : Int := if signed then 2 ^ (size_in_bits - 1) - 1 else 2 ^ size_in_bits - 1
    let min : Int := if signed then -(2 ^ (size_in_bits - 1)) else 0
    if x < min ∨ max < x then PResult.error MdbError.OutOfRange
    else if signed then PResult.ok (Value.Int64 x)
    else PResult.ok (Value.Uint64 x.toNat)

/-- `parse_eng_boolean` (src/mdb/types.rs lines 201-212). -/
def parse_eng_boolean (value : List Nat) (bdt : BooleanDataType) : PResult Value :=
  if value == bdt.zero_string_value then PResult.ok (Value.Boolean false)
  else if value == bdt.one_string_value then PResult.ok (Value.Boolean true)
  else PResult.error MdbError.InvalidValue

/-- `parse_eng_enumerated` (src/mdb/types.rs lines 214-220). -/
def parse_eng_enumerated (value : List Nat) (edt : EnumeratedDataType) : PResult Value :=
  match edt.enumeration.find? (fun ev => ev.label == value) with
  | some v => PResult.ok (Value.StringValue v.label)
  | none => PResult.error MdbError.InvalidValue

/-- `DataType::from_str` (src/mdb/types.rs lines 152-179): parse a literal
against the calibrated type data or against the raw encoding; the branches
the source leaves as `todo!()` crash. -/
def DataType.from_str (dt : DataType) (value : List Nat) (calibrated : Bool) : PResult Value :=
  if calibrated then
    match dt.type_data with
    | TypeData.Integer idt => parse_integer value idt.signed idt.size_in_bits
    | TypeData.Boolean bdt => parse_eng_boolean value bdt
    | TypeData.Enumerated edt => parse_eng_enumerated value edt
    | _ => PResult.crash
  else
    match dt.encoding with
    | DataEncoding.Integer ide =>
      parse_integer value (ide.encoding != IntegerEncodingType.Unsigned) ide.size_in_bits
    | _ => PResult.crash

/-- `get_member_type` (src/mdb/utils.rs lines 77-110): navigate the type
graph along a member path.  Outer `none` is the panic of
`get_data_type` on an invalid index; `some none` is "path not found". -/
def get_member_type (mdb : MissionDatabase) : DataType → MemberPath → Option (Option DataType)
  | dtype, [] => some (some dtype)
  | dtype, pe :: rest =>
    let step1 : Option (Option DataType) :=
      match pe.name with
      | some name =>
        match dtype.type_data with
        | TypeData.Aggregate atype =>
          match atype.members.find? (fun m => m.name == name) with
          | some m =>
            match mdb.get_data_type m.dtype with
            | none => none
            | some rt => some (some rt)
          | none => some none
        | _ => some none
      | none => some (some dtype)
    match step1 with
    | none => none
    | some none => some none
    | some (some rt) =>
      if pe.index.isEmpty then get_member_type mdb rt rest
      else
        match rt.type_data with
        | TypeData.Array atype =>
          if atype.dim.length != pe.index.length then some none
          else
            match mdb.get_data_type atype.dtype with
            | none => none
            | some rt2 => get_member_type mdb rt2 rest
        | _ => some none

/-- `from_comparison` (src/proc/criteria_evaluator.rs lines 50-85): a
parameter without a data type is `NoDataTypeAvailable`; a member path not
found in the type is `InvalidMdb`; the literal parses against the (leaf)
type; equality gets the specialised evaluator. -/
def from_comparison (mdb : MissionDatabase) (comp : Comparison) : PResult CompEvaluator :=
  match mdb.get_parameter comp.param_instance.pidx with
  | none => PResult.crash
  | some param =>
    match param.ptype with
    | none => PResult.error MdbError.NoDataTypeAvailable
    | some ptypeidx =>
      match mdb.get_data_type ptypeidx with
      | none => PResult.crash
      | some ptype0 =>
        let param_instance := comp.param_instance
        let resolved : PResult DataType :=
          match param_instance.member_path with
          | some path =>
            match get_member_type mdb ptype0 path with
            | none => PResult.crash
            | some none => PResult.error MdbError.InvalidMdb
            | some (some p) => PResult.ok p
          | none => PResult.ok ptype0
        match resolved with
        | PResult.crash => PResult.crash
        | PResult.error e => PResult.error e
        | PResult.ok ptype =>
          match ptype.from_str comp.value param_instance.use_calibrated_value with
          | PResult.crash => PResult.crash
          | PResult.error e => PResult.error e
          | PResult.ok right =>
            match comp.comparison_operator with
            | ComparisonOperator.Equality =>
              PResult.ok (CompEvaluator.refEqual param_instance right)
            | _ =>
              PResult.ok (CompEvaluator.refValue param_instance
                comp.comparison_operator right)

/-- The loop of `from_comparison_list`
(src/proc/criteria_evaluator.rs lines 87-97). -/
def from_comparison_loop (mdb : MissionDatabase) : List Comparison → PResult (List CompEvaluator)
  | [] => PResult.ok []
  | c :: rest =>
    match from_comparison mdb c with
    | PResult.crash => PResult.crash
    | PResult.error e => PResult.error e
    | PResult.ok ev =>
      match from_comparison_loop mdb rest with
      | PResult.crash => PResult.crash
      | PResult.error e => PResult.error e
      | PResult.ok l => PResult.ok (ev :: l)

/-- `from_comparison_list`: the AND of the compiled comparisons. -/
def from_comparison_list (mdb : MissionDatabase) (clist : List Comparison) :
    PResult CEvaluator :=
  match from_comparison_loop mdb clist with
  | PResult.crash => PResult.crash
  | PResult.error e => PResult.error e
  | PResult.ok l => PResult.ok (CEvaluator.and l)

/-- `ProcessorData::create_evaluator` (src/proc/mod.rs lines 39-51). -/
def create_evaluator (mdb : MissionDatabase) (criteria : MatchCriteria) : PResult CEvaluator :=
  match criteria with
  | MatchCriteria.Comparison comp =>
    match from_comparison mdb comp with
    | PResult.crash => PResult.crash
    | PResult.error e => PResult.error e
    | PResult.ok c => PResult.ok (CEvaluator.comp c)
  | MatchCriteria.ComparisonList clist => from_comparison_list mdb clist

/-- The loop of `ProcessorData::new` (src/proc/mod.rs lines 27-33): compile
every match criteria of the MDB, in order, stopping at the first error. -/
def compile_evaluators (mdb : MissionDatabase) : List MatchCriteria → PResult (List CEvaluator)
  | [] => PResult.ok []
  | c :: rest =>
    match create_evaluator mdb c with
    | PResult.crash => PResult.crash
    | PResult.error e => PResult.error e
    | PResult.ok ev =>
      match compile_evaluators mdb rest with
      | PResult.crash => PResult.crash
      | PResult.error e => PResult.error e
      | PResult.ok l => PResult.ok (ev :: l)

/-- `ProcessorData::new`. -/
def processor_data_new (mdb : MissionDatabase) : PResult (List CEvaluator) :=
  compile_evaluators mdb mdb.match_criteria

/-! ## Decoding context (src/proc/mod.rs) -/

/-- `ContainerBuf` (src/proc/mod.rs lines 54-97): a bit buffer plus the
byte offset at which this container starts in the overall packet. -/
structure ContainerBuf where
  buf : BitBuffer
  start_offset : Nat
deriving Repr, DecidableEq

/-- `ContainerBuf::new`. -/
def ContainerBuf.new (packet : List Nat) : ContainerBuf :=
  { buf := BitBuffer.wrap packet, start_offset := 0 }

/-- `ContainerBuf::slice` (src/proc/mod.rs line 66): a sub-view starting at
the current byte boundary whose `start_offset` is the current byte offset
of the outer buffer; `none` is the panic of `BitBuffer::slice` on an
unaligned position. -/
def ContainerBuf.slice (cb : ContainerBuf) : Option ContainerBuf :=
  (cb.buf.slice).map (fun b => { buf := b, start_offset := cb.buf.get_position / 8 })

/-- `ContainerBuf::set_position`. -/
def ContainerBuf.set_position (cb : ContainerBuf) (bit_pos : Nat) : ContainerBuf :=
  { cb with buf := cb.buf.set_position bit_pos }

/-- `ContainerBuf::get_position`. -/
def ContainerBuf.get_position (cb : ContainerBuf) : Nat := cb.buf.get_position

/-- `ContainerBuf::bitsize`. -/
def ContainerBuf.bitsize (cb : ContainerBuf) : Nat := cb.buf.bitsize

/-- `ContainerBuf::remaining_bytes`. -/
def ContainerBuf.remaining_bytes (cb : ContainerBuf) : Nat := cb.buf.remaining_bytes

/-- `ContainerBuf::get_bits`. -/
def ContainerBuf.get_bits (cb : ContainerBuf) (num_bits : Nat) : Option (Nat × ContainerBuf) :=
  (cb.buf.get_bits num_bits).map (fun p => (p.1, { cb with buf := p.2 }))

/-- `ContainerBuf::get_byte`. -/
def ContainerBuf.get_byte (cb : ContainerBuf) : Option (Nat × ContainerBuf) :=
  (cb.buf.get_byte).map (fun p => (p.1, { cb with buf := p.2 }))

/-- `ContainerBuf::get_bytes_ref`. -/
def ContainerBuf.get_bytes_ref (cb : ContainerBuf) (len : Nat) :
    Option (List Nat × ContainerBuf) :=
  (cb.buf.get_bytes_ref len).map (fun p => (p.1, { cb with buf := p.2 }))

/-- `ProcCtx` (src/proc/mod.rs lines 99-105): the mission database, the
compiled evaluator table (`ProcessorData`), the container buffer, the
result list and the parameter currently being decoded (used only for error
texts). -/
structure ProcCtx where
  mdb : MissionDatabase
  evaluators : List CEvaluator
  cbuf : ContainerBuf
  result : ParameterValueList
  pidx : Option Nat

/-- `ProcCtx::get_dynamic_uint_value` (src/proc/mod.rs lines 132-165):
value of a dynamic reference as an unsigned integer; with an adjustment
the value is converted to `f64`, scaled, and cast back. -/
def get_dynamic_uint_value (ctx : ProcCtx) (dynpara : DynamicValueType) : PResult Nat :=
  match get_param_value ctx.result dynpara.para_ref with
  | none => PResult.crash
  | some none => PResult.error MdbError.MissingValue
  | some (some v) =>
    match dynpara.adjustment with
    | some adj =>
      match (match v with
             | Value.Uint64 x => some (Float.ofNat x)
             | Value.Int64 x => some (Float.ofInt x)
             | Value.Double x => some x
             | _ => none) with
      | none => PResult.error MdbError.DecodingError
      | some x => PResult.ok (floatToU64Sat (x * adj.slope + adj.intercept))
    | none =>
      match v with
      | Value.Uint64 x => PResult.ok x
      | _ => PResult.error MdbError.DecodingError

/-! ## Encoding extraction (src/proc/encodings.rs) -/

/-- `ContainerPosition` (src/value.rs lines 140-160); `details = none` is
`ContainerPositionDetails::None`, `some m` is the aggregate member map
(modelled as an association list). -/
inductive ContainerPosition where
  | mk (start_offset bit_offset bit_size : Nat)
    (details : Option (List (Nat × ContainerPosition)))

/-- Projection: start offset. -/
def ContainerPosition.start_offset : ContainerPosition → Nat
  | ContainerPosition.mk s _ _ _ => s

/-- Projection: bit offset. -/
def ContainerPosition.bit_offset : ContainerPosition → Nat
  | ContainerPosition.mk _ o _ _ => o

/-- Projection: bit size. -/
def ContainerPosition.bit_size : ContainerPosition → Nat
  | ContainerPosition.mk _ _ n _ => n

/-- Sign extension of the low `numbits` bits of an extracted word: the
`(x << n) >> n` idiom of the source (`n = 64 - numbits`, shifts on
`i64`). -/
def signExtend (numbits : Nat) (bv : Nat) : Int :=
  let low := bv % 2 ^ numbits
  if low < 2 ^ (numbits - 1) then Int.ofNat low else Int.ofNat low - 2 ^ numbits

/-- `extract_integer` (src/proc/encodings.rs lines 28-83). -/
def extract_integer (ide : IntegerDataEncoding) (ctx : ProcCtx) :
    PResult ((Value × ContainerPosition) × ProcCtx) :=
  let cb := { ctx.cbuf with buf := ctx.cbuf.buf.set_byte_order ide.byte_order }
  let numbits := ide.size_in_bits
  let bit_offset := cb.get_position
  let start_offset := cb.start_offset
  match cb.get_bits numbits with
  | none => PResult.crash
  | some (bv, cb2) =>
    let v : Value :=
      match ide.encoding with
      | IntegerEncodingType.Unsigned => Value.uint_value numbits bv
      | IntegerEncodingType.TwosComplement =>
        Value.int_value numbits (signExtend numbits bv)
      | IntegerEncodingType.SignMagnitude =>
        if (bv >>> (numbits - 1)) &&& 1 == 1 then
          Value.int_value numbits (-(Int.ofNat (bv &&& (2 ^ (numbits - 1) - 1))))
        else Value.int_value numbits (u64AsI64 bv)
      | IntegerEncodingType.OnesComplement =>
        if (bv >>> (numbits - 1)) &&& 1 == 1 then
          let x := signExtend numbits bv
          let xb := -x - 1
          Value.int_value numbits (-xb)
        else Value.int_value numbits (u64AsI64 bv)
    PResult.ok ((v, ContainerPosition.mk start_offset bit_offset numbits none),
      { ctx with cbuf := cb2 })

/-- IEEE-754 value of an `f64` bit pattern, built with `Float.scaleB`
(Lean has no from-bits primitive).  Not evaluated by any theorem. -/
def f64FromBits (bits : Nat) : Float :=
  let s := (bits >>> 63) &&& 1
  let e := (bits >>> 52) &&& 0x7FF
  let m := bits &&& 0xFFFFFFFFFFFFF
  let mag : Float :=
    if e == 0x7FF then
      if m == 0 then (1 : Float) / 0 else (0 : Float) / 0
    else if e == 0 then
      Float.scaleB (Float.ofNat m) (-1074)
    else
      Float.scaleB (Float.ofNat (m + 2 ^ 52)) (Int.ofNat e - 1075)
  if s == 1 then -mag else mag

/-- Widening of an `f32` bit pattern to the `f64` bit pattern with the same
value (the `f32::from_bits(..) as f64` path). -/
def f32BitsToF64Bits (x : Nat) : Nat :=
  let s := (x >>> 31) &&& 1
  let e := (x >>> 23) &&& 0xFF
  let m := x &&& 0x7FFFFF
  if e == 0xFF then (s <<< 63) ||| (0x7FF <<< 52) ||| (m <<< 29)
  else if e == 0 then
    if m == 0 then s <<< 63
    else
      let k := Nat.log2 m
      (s <<< 63) ||| ((k + 874) <<< 52) ||| ((m - 2 ^ k) <<< (52 - k))
  else (s <<< 63) ||| ((e + 896) <<< 52) ||| (m <<< 29)

/-- `extract_float` (src/proc/encodings.rs lines 215-256); the
MIL-STD-1750A arm of the source actually performs the two's-complement
interpretation (a placeholder). -/
def extract_float (fde : FloatDataEncoding) (ctx : ProcCtx) :
    PResult ((Value × ContainerPosition) × ProcCtx) :=
  let cb := { ctx.cbuf with buf := ctx.cbuf.buf.set_byte_order fde.byte_order }
  let numbits := fde.size_in_bits
  let bit_offset := cb.get_position
  let start_offset := cb.start_offset
  match cb.get_bits numbits with
  | none => PResult.crash
  | some (bv, cb2) =>
    let v : Value :=
      match fde.encoding with
      | FloatEncodingType.IEEE754_1985 =>
        if numbits == 32 then Value.Double (f64FromBits (f32BitsToF64Bits bv))
        else Value.Double (f64FromBits bv)
      | FloatEncodingType.Milstd1750a =>
        Value.int_value numbits (signExtend numbits bv)
    PResult.ok ((v, ContainerPosition.mk start_offset bit_offset numbits none),
      { ctx with cbuf := cb2 })

/-- ASCII bytes of `"UTF-8"`. -/
def strUTF8 : List Nat := [85, 84, 70, 45, 56]

/-- The UTF-8 replacement character U+FFFD as bytes. -/
def utf8Repl : List Nat := [0xEF, 0xBF, 0xBD]

/-- UTF-8 continuation byte. -/
def isCont (b : Nat) : Bool := decide (0x80 ≤ b) && decide (b ≤ 0xBF)

/-- Fuelled worker for `fromUtf8Lossy`; every step consumes at least one
byte, so fuel equal to the input length is always sufficient. -/
def fromUtf8LossyF : Nat → List Nat → List Nat
  | 0, _ => []
  | _, [] => []
  | fuel + 1, a :: rest =>
    if a ≤ 0x7F then a :: fromUtf8LossyF fuel rest
    else if 0xC2 ≤ a ∧ a ≤ 0xDF then
      match rest with
      | b :: rest2 =>
        if isCont b then a :: b :: fromUtf8LossyF fuel rest2
        else utf8Repl ++ fromUtf8LossyF fuel rest
      | [] => utf8Repl
    else if 0xE0 ≤ a ∧ a ≤ 0xEF then
      match rest with
      | b :: c :: rest3 =>
        if (isCont b && isCont c &&
            (!(a == 0xE0) || decide (0xA0 ≤ b)) &&
            (!(a == 0xED) || decide (b ≤ 0x9F))) then
          a :: b :: c :: fromUtf8LossyF fuel rest3
        else utf8Repl ++ fromUtf8LossyF fuel rest
      | _ => utf8Repl ++ fromUtf8LossyF fuel rest
    else if 0xF0 ≤ a ∧ a ≤ 0xF4 then
      match rest with
      | b :: c :: d :: rest4 =>
        if (isCont b && isCont c && isCont d &&
            (!(a == 0xF0) || decide (0x90 ≤ b)) &&
            (!(a == 0xF4) || decide (b ≤ 0x8F))) then
          a :: b :: c :: d :: fromUtf8LossyF fuel rest4
        else utf8Repl ++ fromUtf8LossyF fuel rest
      | _ => utf8Repl ++ fromUtf8LossyF fuel rest
    else utf8Repl ++ fromUtf8LossyF fuel rest

/-- `String::from_utf8_lossy` on byte lists: valid sequences pass through,
invalid bytes are replaced with U+FFFD.  (The source replaces per maximal
subpart; the difference is confined to invalid inputs, which no theorem
evaluates.) -/
def fromUtf8Lossy (s : List Nat) : List Nat := fromUtf8LossyF s.length s

/-- The terminator scan of `extract_string`
(`while strsize < bmr && get_byte() != termination_char`,
src/proc/encodings.rs line 172).  The first argument is the remaining
iteration budget `bmr - strsize`; the returned pair is the count of bytes
before the terminator and the buffer after the last read. -/
def scanTerm : Nat → ContainerBuf → Nat → Nat → PResult (Nat × ContainerBuf)
  | 0, cb, _, strsize => PResult.ok (strsize, cb)
  | rem + 1, cb, tc, strsize =>
    match cb.get_byte with
    | none => PResult.crash
    | some (v, cb2) =>
      if v != tc then scanTerm rem cb2 tc (strsize + 1)
      else PResult.ok (strsize, cb2)

/-- The box-size resolution step of `extract_string`
(src/proc/encodings.rs lines 111-137): returns the optional box size and
the updated running bound `bmr`. -/
def resolve_box_size (sde : StringDataEncoding) (ctx : ProcCtx) (bmr : Nat) :
    PResult (Option Nat × Nat) :=
  match sde.box_size_in_bits with
  | StringBoxSize.Undefined => PResult.ok (none, bmr)
  | StringBoxSize.Fixed x =>
    let bsize := x / 8
    if bmr < bsize then PResult.error MdbError.DecodingError
    else PResult.ok (some bsize, bsize)
  | StringBoxSize.Dynamic dv =>
    match get_dynamic_uint_value ctx dv with
    | PResult.crash => PResult.crash
    | PResult.error e => PResult.error e
    | PResult.ok x =>
      let bsize := (x / 8) % 2 ^ 32
      if bmr < bsize then PResult.error MdbError.DecodingError
      else PResult.ok (some bsize, bsize)

/-- The initial `bmr` of `extract_string` (src/proc/encodings.rs line
109): the optional maximum box size capped by the remaining bytes
(`filter(|m| *m < remaining).unwrap_or(remaining)`). -/
def initial_bmr (sde : StringDataEncoding) (remaining : Nat) : Nat :=
  match sde.max_box_size_in_bytes with
  | some m => if m < remaining then m else remaining
  | none => remaining

/-- The common tail of `extract_string` (src/proc/encodings.rs lines
191-212): assert the box size is known (panic otherwise), read the string
bytes, decode them (UTF-8 only, anything else is `todo!()`), and park the
cursor at the end of the box. -/
def string_finish (sde : StringDataEncoding) (ctx : ProcCtx) (position start_offset : Nat)
    (strsize : Nat) (box : Option Nat) (cb : ContainerBuf) :
    PResult ((Value × ContainerPosition) × ProcCtx) :=
  match box with
  | none => PResult.crash
  | some b =>
    match cb.get_bytes_ref strsize with
    | none => PResult.crash
    | some (bytes, cb2) =>
      if sde.encoding == strUTF8 then
        let bit_size := 8 * b
        let cb3 := cb2.set_position (position + bit_size)
        PResult.ok ((Value.StringValue (fromUtf8Lossy bytes),
          ContainerPosition.mk start_offset position bit_size none),
          { ctx with cbuf := cb3 })
      else PResult.crash

/-- `extract_string` (src/proc/encodings.rs lines 92-213): requires a
byte-aligned start; establishes `bmr` from the optional maximum box size
and the remaining bytes; resolves the box size; resolves the string size
per policy (reading a leading size tag or scanning for the terminator);
then `string_finish` extracts and decodes the bytes and places the cursor
at the end of the box. -/
def extract_string (sde : StringDataEncoding) (ctx : ProcCtx) :
    PResult ((Value × ContainerPosition) × ProcCtx) :=
  let position := ctx.cbuf.get_position
  let start_offset := ctx.cbuf.start_offset
  if position % 8 != 0 then PResult.error MdbError.DecodingError
  else
    let bmr0 := initial_bmr sde ctx.cbuf.remaining_bytes
    match resolve_box_size sde ctx bmr0 with
    | PResult.crash => PResult.crash
    | PResult.error e => PResult.error e
    | PResult.ok (box_size0, bmr) =>
      match sde.size_in_bits with
      | StringSize.Fixed x =>
        let strsize := x / 8
        if bmr < strsize then PResult.error MdbError.DecodingError
        else string_finish sde ctx position start_offset strsize box_size0 ctx.cbuf
      | StringSize.LeadingSize tag_size =>
        if bmr < tag_size then PResult.error MdbError.DecodingError
        else
          match ctx.cbuf.get_bits (tag_size * 8) with
          | none => PResult.crash
          | some (sz, cb2) =>
            let size := sz % 2 ^ 32
            if bmr < tag_size + size then PResult.error MdbError.DecodingError
            else string_finish sde ctx position start_offset size
              (some (box_size0.getD (tag_size + size))) cb2
      | StringSize.TerminationChar tc =>
        match scanTerm bmr ctx.cbuf tc 0 with
        | PResult.crash => PResult.crash
        | PResult.error e => PResult.error e
        | PResult.ok (strsize, cb2) =>
          match box_size0 with
          | none =>
            if strsize == bmr then PResult.error MdbError.DecodingError
            else string_finish sde ctx position start_offset strsize
              (some (strsize + 1)) (cb2.set_position position)
          | some b => string_finish sde ctx position start_offset strsize
              (some b) (cb2.set_position position)
      | StringSize.Custom => PResult.crash

/-- `extract_encoding` (src/proc/encodings.rs lines 14-26): binary and
boolean extraction are `todo!()`, an absent encoding is `panic!`. -/
def extract_encoding (encoding : DataEncoding) (ctx : ProcCtx) :
    PResult ((Value × ContainerPosition) × ProcCtx) :=
  match encoding with
  | DataEncoding.Integer ide => extract_integer ide ctx
  | DataEncoding.Binary => PResult.crash
  | DataEncoding.Boolean => PResult.crash
  | DataEncoding.Float fde => extract_float fde ctx
  | DataEncoding.String sde => extract_string sde ctx
  | DataEncoding.None => PResult.crash

/-! ## Container processing (src/proc/containers.rs, src/proc/types.rs)

The recursion of the source (through the type graph for aggregates, and
through the container inheritance tree) is unbounded; each function below
consumes one unit of fuel per step, and exhausted fuel is modelled as
divergence (`crash`).  Every statement proved about these functions holds
for every fuel value. -/

mutual

/-- `extract` (src/proc/types.rs lines 12-28): aggregates without encoding
recurse over their members, arrays are `todo!()`, any other type without
encoding is an invalid MDB; otherwise dispatch on the encoding. -/
def extract : Nat → DataType → ProcCtx → PResult ((Value × ContainerPosition) × ProcCtx)
  | 0, _, _ => PResult.crash
  | fuel + 1, ptype, ctx =>
    match ptype.encoding with
    | DataEncoding.None =>
      match ptype.type_data with
      | TypeData.Aggregate atype => extract_aggregate fuel atype ctx
      | TypeData.Array _ => PResult.crash
      | _ => PResult.error MdbError.InvalidMdb
    | _ => extract_encoding ptype.encoding ctx

/-- `extract_aggregate` (src/proc/types.rs lines 31-62): extract the
members in declaration order, record the member positions; the recorded
bit offset is the position after the last member (as in the source). -/
def extract_aggregate : Nat → AggregateDataType → ProcCtx →
    PResult ((Value × ContainerPosition) × ProcCtx)
  | 0, _, _ => PResult.crash
  | fuel + 1, atype, ctx =>
    let bit_offset0 := ctx.cbuf.buf.get_position
    let start_offset := ctx.cbuf.start_offset
    match extract_members fuel atype.members ctx with
    | PResult.crash => PResult.crash
    | PResult.error e => PResult.error e
    | PResult.ok ((aggrm, posm), ctx2) =>
      let bit_offset1 := ctx2.cbuf.buf.get_position
      PResult.ok ((Value.Aggregate aggrm,
        ContainerPosition.mk start_offset bit_offset1 (bit_offset1 - bit_offset0) (some posm)),
        ctx2)

/-- The member loop of `extract_aggregate`. -/
def extract_members : Nat → List Member → ProcCtx →
    PResult ((List (Nat × Value) × List (Nat × ContainerPosition)) × ProcCtx)
  | 0, _, _ => PResult.crash
  | _ + 1, [], ctx => PResult.ok (([], []), ctx)
  | fuel + 1, m :: rest, ctx =>
    match ctx.mdb.get_data_type m.dtype with
    | none => PResult.crash
    | some dtype =>
      match extract fuel dtype ctx with
      | PResult.crash => PResult.crash
      | PResult.error e => PResult.error e
      | PResult.ok ((member_rv, cpos), ctx2) =>
        match extract_members fuel rest ctx2 with
        | PResult.crash => PResult.crash
        | PResult.error e => PResult.error e
        | PResult.ok ((aggrm, posm), ctx3) =>
          PResult.ok (((m.name, member_rv) :: aggrm, (m.name, cpos) :: posm), ctx3)

/-- `extract_parameter` (src/proc/containers.rs lines 113-131): look up the
parameter and its type (`NoDataTypeAvailable` when absent), extract the
raw value, calibrate it, and append the parameter value to the result
list (the container position is computed and dropped, as in the source). -/
def extract_parameter : Nat → Nat → ProcCtx → PResult ProcCtx
  | 0, _, _ => PResult.crash
  | fuel + 1, pidx, ctx =>
    match ctx.mdb.get_parameter pidx with
    | none => PResult.crash
    | some param =>
      match param.ptype with
      | none => PResult.error MdbError.NoDataTypeAvailable
      | some ptype_idx =>
        match ctx.mdb.get_data_type ptype_idx with
        | none => PResult.crash
        | some dtype =>
          match extract fuel dtype ctx with
          | PResult.crash => PResult.crash
          | PResult.error e => PResult.error e
          | PResult.ok ((raw_value, _cpos), ctx2) =>
            match calibrate fuel raw_value dtype ctx2.mdb with
            | PResult.crash => PResult.crash
            | PResult.error e => PResult.error e
            | PResult.ok eng_value =>
              let pv := ParameterValue.mk pidx raw_value eng_value
              PResult.ok { ctx2 with result := ctx2.result.push pv }

/-- `extract_entry` (src/proc/containers.rs lines 102-111): parameter
references are extracted; container references, indirect references and
array references are all `todo!()` — a panic. -/
def extract_entry : Nat → ContainerEntryData → ProcCtx → PResult ProcCtx
  | 0, _, _ => PResult.crash
  | fuel + 1, entry, ctx =>
    match entry with
    | ContainerEntryData.ParameterRef pidx => extract_parameter fuel pidx ctx
    | ContainerEntryData.ContainerRef _ => PResult.crash
    | ContainerEntryData.IndirectParameterRef => PResult.crash
    | ContainerEntryData.ArrayParameterRef => PResult.crash

/-- The entry loop of `extract_container` (src/proc/containers.rs lines
40-64): evaluate the include condition (skip the entry unless OK), apply
the location rule (`OutOfBounds` outside `[0, bitsize]`), extract. -/
def entries_loop : Nat → List ContainerEntry → ProcCtx → PResult ProcCtx
  | 0, _, _ => PResult.crash
  | _ + 1, [], ctx => PResult.ok ctx
  | fuel + 1, entry :: rest, ctx =>
    let included : PResult Bool :=
      match entry.include_condition with
      | none => PResult.ok true
      | some mcidx =>
        match ctx.evaluators[mcidx]? with
        | none => PResult.crash
        | some ev =>
          match ev.evaluate ctx.result with
          | none => PResult.crash
          | some r => PResult.ok (r == MatchResult.OK)
    match included with
    | PResult.crash => PResult.crash
    | PResult.error e => PResult.error e
    | PResult.ok false => entries_loop fuel rest ctx
    | PResult.ok true =>
      let positioned : PResult ProcCtx :=
        match entry.location_in_container with
        | none => PResult.ok ctx
        | some lic =>
          let pos := ctx.cbuf.get_position
          let newpos : Int :=
            match lic.reference_location with
            | ReferenceLocationType.ContainerStart => lic.location_in_bits
            | ReferenceLocationType.PreviousEntry => Int.ofNat pos + lic.location_in_bits
          if newpos < 0 ∨ Int.ofNat ctx.cbuf.bitsize < newpos then
            PResult.error MdbError.OutOfBounds
          else PResult.ok { ctx with cbuf := ctx.cbuf.set_position newpos.toNat }
      match positioned with
      | PResult.crash => PResult.crash
      | PResult.error e => PResult.error e
      | PResult.ok ctx2 =>
        match extract_entry fuel entry.data ctx2 with
        | PResult.crash => PResult.crash
        | PResult.error e => PResult.error e
        | PResult.ok ctx3 => entries_loop fuel rest ctx3

/-- The child loop of `extract_container` (src/proc/containers.rs lines
66-97): each inheriting child is gated by its base-container restriction
criteria (absent criteria always match; a child without a base container
is an `unwrap` panic); only an OK match recurses. -/
def children_loop : Nat → List Nat → ProcCtx → PResult ProcCtx
  | 0, _, _ => PResult.crash
  | _ + 1, [], ctx => PResult.ok ctx
  | fuel + 1, c :: rest, ctx =>
    match ctx.mdb.get_container c with
    | none => PResult.crash
    | some child =>
      match child.base_container with
      | none => PResult.crash
      | some (_, mcidx?) =>
        let res : Option MatchResult :=
          match mcidx? with
          | some mcidx =>
            match ctx.evaluators[mcidx]? with
            | none => none
            | some ev => ev.evaluate ctx.result
          | none => some MatchResult.OK
        match res with
        | none => PResult.crash
        | some match_res =>
          if match_res == MatchResult.OK then
            match extract_container fuel child ctx with
            | PResult.crash => PResult.crash
            | PResult.error e => PResult.error e
            | PResult.ok ctx2 => children_loop fuel rest ctx2
          else children_loop fuel rest ctx

/-- `extract_container` (src/proc/containers.rs lines 34-100): process the
entry list, then the inheriting children. -/
def extract_container : Nat → SequenceContainer → ProcCtx → PResult ProcCtx
  | 0, _, _ => PResult.crash
  | fuel + 1, container, ctx =>
    match entries_loop fuel container.entries ctx with
    | PResult.crash => PResult.crash
    | PResult.error e => PResult.error e
    | PResult.ok ctx2 =>
      match ctx2.mdb.child_containers_of container.idx with
      | none => PResult.ok ctx2
      | some children => children_loop fuel children ctx2

end

/-- `MAX_PACKET_SIZE` (src/proc/containers.rs line 14):
`(u32::MAX / 4) as usize`, that is `(2 ^ 32 - 1) / 4 = 2 ^ 30 - 1`. -/
def MAX_PACKET_SIZE : Nat := (2 ^ 32 - 1) / 4

/-- The size guard of `process` (src/proc/containers.rs line 21):
`packet.len() > MAX_PACKET_SIZE`. -/
def packet_too_long (len : Nat) : Bool := MAX_PACKET_SIZE < len

/-- The part of `process` after the size check (src/proc/containers.rs
lines 24-31): look up the root container, compile the evaluator table for
the whole MDB (`ProcessorData::new`), and extract the root container over
a fresh context. -/
def process_sized (fuel : Nat) (mdb : MissionDatabase) (packet : List Nat)
    (root_container : Nat) : PResult ParameterValueList :=
  match mdb.get_container root_container with
    | none => PResult.crash
    | some container =>
      match processor_data_new mdb with
      | PResult.crash => PResult.crash
      | PResult.error e => PResult.error e
      | PResult.ok evaluators =>
        let ctx : ProcCtx :=
          { mdb := mdb, evaluators := evaluators, cbuf := ContainerBuf.new packet,
            result := ParameterValueList.new, pidx := none }
        match extract_container fuel container ctx with
        | PResult.crash => PResult.crash
        | PResult.error e => PResult.error e
        | PResult.ok ctx2 => PResult.ok ctx2.result

/-- `process` (src/proc/containers.rs lines 16-32): packets longer than
`MAX_PACKET_SIZE` panic ("Packet too long"), otherwise processing
proceeds. -/
def process (fuel : Nat) (mdb : MissionDatabase) (packet : List Nat)
    (root_container : Nat) : PResult ParameterValueList :=
  if packet_too_long packet.length then PResult.crash
  else process_sized fuel mdb packet root_container

/-- C6 counterexample: a `ContainerRef` container entry does not recurse
into the referenced container — `extract_entry` hits the
`ContainerEntryData::ContainerRef(_) => todo!()` arm and panics, so no
sub-view is created and nothing is appended to the result list. -/
theorem container_ref_entry_counterexample :
    extract_entry 1 (ContainerEntryData.ContainerRef 0)
      { mdb := MissionDatabase.mk [] [] [] [] [], evaluators := [],
        cbuf := ContainerBuf.new [0], result := ParameterValueList.new,
        pidx := none } = PResult.crash := rfl

/-- C6 amended: processing a `ContainerRef(cidx)` entry panics
(`todo!()`, unimplemented) for every fuel, target container and context;
the sub-view machinery itself (`ContainerBuf::slice`) does behave as the
claim describes: at a byte-aligned position it yields the buffer tail
starting at the current byte with `start_offset` equal to the current
byte offset of the outer buffer. -/
theorem container_ref_entry_semantics :
    (∀ fuel cidx ctx, extract_entry (fuel + 1) (ContainerEntryData.ContainerRef cidx) ctx =
      PResult.crash) ∧
    (∀ cb : ContainerBuf, cb.buf.position % 8 = 0 →
      cb.slice = some (ContainerBuf.mk
        (BitBuffer.mk (cb.buf.b.drop (cb.buf.position / 8)) 0 cb.buf.byte_order)
        (cb.buf.position / 8))) := by
  constructor
  · intro fuel cidx ctx
    simp [extract_entry]
  · intro cb h
    simp [ContainerBuf.slice, BitBuffer.slice, BitBuffer.get_position, h]

/-- Witness for `container_ref_entry_semantics` at a concrete entry and a
concrete aligned buffer. -/
theorem container_ref_entry_semantics_witness :
    extract_entry (0 + 1) (ContainerEntryData.ContainerRef 2)
      { mdb := MissionDatabase.mk [] [] [] [] [], evaluators := [],
        cbuf := ContainerBuf.new [1, 2], result := ParameterValueList.new,
        pidx := none } = PResult.crash ∧
    (ContainerBuf.mk (BitBuffer.mk [1, 2, 3] 8 ByteOrder.BigEndian) 0).slice = some
      (ContainerBuf.mk (BitBuffer.mk (List.drop (8 / 8) [1, 2, 3]) 0 ByteOrder.BigEndian)
        (8 / 8)) :=
  ⟨container_ref_entry_semantics.1 0 2 _,
   container_ref_entry_semantics.2 (ContainerBuf.mk (BitBuffer.mk [1, 2, 3] 8 ByteOrder.BigEndian) 0)
     (by decide)⟩

/-- C7 counterexample: a packet of exactly `2 ^ 30` bytes is fatally
rejected: the size guard of `process` fires for length `2 ^ 30` (the
limit is `u32::MAX / 4 = 2 ^ 30 - 1`), while the claim says every packet
of length at most `2 ^ 30` passes the size check. -/
theorem packet_size_limit_counterexample :
    packet_too_long (2 ^ 30) = true ∧ 2 ^ 30 ≤ 2 ^ 30 := by
  constructor
  · decide
  · exact Nat.le_refl _

/-- C7 amended: the size check of `process` rejects exactly the packets
longer than `MAX_PACKET_SIZE = u32::MAX / 4 = 2 ^ 30 - 1` bytes, i.e. it
fires if and only if the length is at least `2 ^ 30`; a rejected packet
is fatal (a panic), an accepted one proceeds to normal processing. -/
theorem packet_size_limit (fuel : Nat) (mdb : MissionDatabase) (packet : List Nat)
    (root : Nat) :
    (∀ len : Nat, packet_too_long len = true ↔ 2 ^ 30 ≤ len) ∧
    (packet_too_long packet.length = true →
      process fuel mdb packet root = PResult.crash) ∧
    (packet_too_long packet.length = false →
      process fuel mdb packet root = process_sized fuel mdb packet root) := by
  refine ⟨?_, ?_, ?_⟩
  · intro len
    unfold packet_too_long MAX_PACKET_SIZE
    norm_num
    omega
  · intro h
    unfold process
    rw [h]
    rfl
  · intro h
    unfold process
    rw [h]
    rfl

/-- Witness for `packet_size_limit`: the empty packet passes the size
check. -/
theorem packet_size_limit_witness :
    process 1 (MissionDatabase.mk [] [] [] [] []) [] 0 =
      process_sized 1 (MissionDatabase.mk [] [] [] [] []) [] 0 :=
  (packet_size_limit 1 (MissionDatabase.mk [] [] [] [] []) [] 0).2.2 (by decide)

/-- Compiling the evaluator table surfaces the first failing criteria:
if the criteria at position `i` fails with error `e` and every earlier
criteria compiles, the whole compilation fails with `e`. -/
theorem compile_evaluators_first_error (mdb : MissionDatabase) :
    ∀ (l : List MatchCriteria) (i : Nat) (crit : MatchCriteria) (e : MdbError),
      l[i]? = some crit →
      create_evaluator mdb crit = PResult.error e →
      (∀ j cj, j < i → l[j]? = some cj →
        ∃ ev, create_evaluator mdb cj = PResult.ok ev) →
      compile_evaluators mdb l = PResult.error e := by
  intro l
  induction l with
  | nil => intro i crit e h; simp at h
  | cons c0 rest ih =>
    intro i crit e hget hfail hearlier
    cases i with
    | zero =>
      simp at hget
      subst hget
      unfold compile_evaluators
      rw [hfail]
    | succ i =>
      obtain ⟨ev0, hev0⟩ := hearlier 0 c0 (Nat.succ_pos i) (by simp)
      have hrest : compile_evaluators mdb rest = PResult.error e := by
        apply ih i crit e (by simpa using hget) hfail
        intro j cj hj hcj
        exact hearlier (j + 1) cj (by omega) (by simpa using hcj)
      unfold compile_evaluators
      rw [hev0, hrest]

/-- The MDB of the C10 counterexample: two match criteria, the first over
a typed parameter but with an unparseable literal, the second referencing
a parameter that has no data type. -/
def mdb_cex : MissionDatabase :=
  MissionDatabase.mk
    [DataType.mk 10 DataEncoding.None
      (TypeData.Integer (IntegerDataType.mk 8 true)) none]
    [Parameter.mk 0 (some 0), Parameter.mk 1 none]
    [SequenceContainer.mk 2 none false [] 0]
    [MatchCriteria.Comparison (Comparison.mk (ParameterInstanceRef.mk 0 none 0 true)
        ComparisonOperator.Equality [97, 98, 99]),
      MatchCriteria.Comparison (Comparison.mk (ParameterInstanceRef.mk 1 none 0 true)
        ComparisonOperator.Equality [49])]
    []

/-- C10 counterexample: `mdb_cex` stores a MatchCriteria (at position 1)
referencing a parameter that has no data type, yet `process` fails with
`InvalidValue`, not `NoDataTypeAvailable`: the criteria at position 0 is
compiled first and its literal "abc" does not parse against the signed
8-bit integer type. -/
theorem global_compilation_counterexample :
    process 1 mdb_cex [] 0 = PResult.error MdbError.InvalidValue ∧
    mdb_cex.match_criteria[1]? = some (MatchCriteria.Comparison
      (Comparison.mk (ParameterInstanceRef.mk 1 none 0 true)
        ComparisonOperator.Equality [49])) ∧
    mdb_cex.get_parameter 1 = some (Parameter.mk 1 none) ∧
    (PResult.error MdbError.InvalidValue ≠
      (PResult.error MdbError.NoDataTypeAvailable : PResult ParameterValueList)) :=
  ⟨rfl, rfl, rfl, by simp⟩

/-- C10 amended: evaluator compilation is global and precedes extraction.
A comparison referencing a parameter without a data type compiles to the
`NoDataTypeAvailable` error; and whenever the criteria at some position of
the MDB table fails to compile with `NoDataTypeAvailable` while every
earlier criteria compiles, `process` fails with `NoDataTypeAvailable` for
every fuel, every packet within the size limit and every valid root
container — the packet is never touched, even when the criteria would not
be used for it. -/
theorem global_compilation (mdb : MissionDatabase) :
    (∀ (pi : ParameterInstanceRef) (op : ComparisonOperator) (val : List Nat) (p : Parameter),
      mdb.get_parameter pi.pidx = some p → p.ptype = none →
      create_evaluator mdb (MatchCriteria.Comparison (Comparison.mk pi op val)) =
        PResult.error MdbError.NoDataTypeAvailable) ∧
    (∀ (i : Nat) (crit : MatchCriteria), mdb.match_criteria[i]? = some crit →
      create_evaluator mdb crit = PResult.error MdbError.NoDataTypeAvailable →
      (∀ (j : Nat) (cj : MatchCriteria), j < i → mdb.match_criteria[j]? = some cj →
        ∃ ev, create_evaluator mdb cj = PResult.ok ev) →
      ∀ fuel packet root c, packet_too_long packet.length = false →
        mdb.get_container root = some c →
        process fuel mdb packet root = PResult.error MdbError.NoDataTypeAvailable) := by
  constructor
  · intro pi op val p hp hptype
    unfold create_evaluator from_comparison
    simp only [hp, hptype]
  · intro i crit hget hfail hearlier fuel packet root c hsize hroot
    have hcomp : processor_data_new mdb = PResult.error MdbError.NoDataTypeAvailable :=
      compile_evaluators_first_error mdb mdb.match_criteria i crit
        MdbError.NoDataTypeAvailable hget hfail hearlier
    unfold process
    rw [hsize]
    unfold process_sized
    rw [hroot, hcomp]
    rfl

/-- The MDB of the C10 witness: one criteria over an untyped parameter. -/
def mdb_wit : MissionDatabase :=
  MissionDatabase.mk []
    [Parameter.mk 0 none]
    [SequenceContainer.mk 1 none false [] 0]
    [MatchCriteria.Comparison (Comparison.mk (ParameterInstanceRef.mk 0 none 0 true)
      ComparisonOperator.Equality [49])]
    []

/-- Witness for `global_compilation`: a one-criteria MDB over an untyped
parameter makes `process` fail with `NoDataTypeAvailable` on the empty
packet. -/
theorem global_compilation_witness :
    process 3 mdb_wit [] 0 = PResult.error MdbError.NoDataTypeAvailable :=
  (global_compilation mdb_wit).2 0
    (MatchCriteria.Comparison (Comparison.mk (ParameterInstanceRef.mk 0 none 0 true)
      ComparisonOperator.Equality [49]))
    (by simp [mdb_wit])
    rfl
    (by intro j cj hj hcj; omega)
    3 [] 0 (SequenceContainer.mk 1 none false [] 0)
    (by decide) rfl


/-! ## C5: TerminationChar string extraction -/

/-- At a byte-aligned position, an 8-bit read returns exactly the byte at
the corresponding byte index, in either byte order. -/
theorem get_bits8_aligned (b : List Nat) (bo : ByteOrder) (q v : Nat)
    (h : b[q]? = some v) :
    (BitBuffer.mk b (8 * q) bo).get_bits 8 =
      some (v, BitBuffer.mk b (8 * q + 8) bo) := by
  have h1 : 8 * q % 8 = 0 := Nat.mul_mod_right 8 q
  have h2 : 8 * q / 8 = q := by omega
  have h3 : (8 * q + 8 - 1) / 8 = q := by omega
  have h4 : (8 * q + 8) % 8 = 0 := by omega
  have hbe : beLoop b 0 q 8 = some v := by
    show (match b[q]? with
          | none => none
          | some byte => some ((0 <<< 8) ||| (byte >>> (8 - 8)))) = some v
    rw [h]; simp
  have hle : leLoop b 0 q 8 = some v := by
    show (match b[q]? with
          | none => none
          | some byte => some ((0 <<< 8) ||| (byte >>> (8 - 8)))) = some v
    rw [h]; simp
  cases bo with
  | BigEndian =>
    dsimp only [BitBuffer.get_bits, BitBuffer.get_bits_be]
    rw [if_neg (by norm_num), if_neg (by simp), h1, h2]
    norm_num
    rw [hbe]
  | LittleEndian =>
    dsimp only [BitBuffer.get_bits, BitBuffer.get_bits_le]
    rw [if_neg (by norm_num), if_pos rfl, h3, h4]
    norm_num
    rw [hle]

/-- At a byte-aligned position, `ContainerBuf::get_byte` returns the byte
at the corresponding byte index and advances by one byte. -/
theorem get_byte_aligned (b : List Nat) (bo : ByteOrder) (so q v : Nat)
    (h : b[q]? = some v) :
    (ContainerBuf.mk (BitBuffer.mk b (8 * q) bo) so).get_byte =
      some (v, ContainerBuf.mk (BitBuffer.mk b (8 * q + 8) bo) so) := by
  unfold ContainerBuf.get_byte BitBuffer.get_byte
  rw [get_bits8_aligned b bo q v h]
  rfl

/-- At a byte-aligned position with enough bytes left,
`ContainerBuf::get_bytes_ref k` returns the next `k` bytes and advances by
`8 * k` bits. -/
theorem get_bytes_ref_aligned (b : List Nat) (bo : ByteOrder) (so q k : Nat)
    (h : q + k ≤ b.length) :
    (ContainerBuf.mk (BitBuffer.mk b (8 * q) bo) so).get_bytes_ref k =
      some ((b.drop q).take k,
        ContainerBuf.mk (BitBuffer.mk b (8 * q + 8 * k) bo) so) := by
  unfold ContainerBuf.get_bytes_ref BitBuffer.get_bytes_ref
  dsimp only
  rw [show 8 * q / 8 = q from by omega]
  rw [if_neg (by omega), if_neg (by omega)]
  rfl

/-- At a byte-aligned position, `remaining_bytes` is the number of bytes
from the aligned byte index to the end of the buffer. -/
theorem remaining_bytes_aligned (b : List Nat) (bo : ByteOrder) (so q : Nat)
    (hq : q ≤ b.length) :
    (ContainerBuf.mk (BitBuffer.mk b (8 * q) bo) so).remaining_bytes =
      b.length - q := by
  unfold ContainerBuf.remaining_bytes BitBuffer.remaining_bytes BitBuffer.bitsize
  dsimp only
  omega

/-- `initial_bmr` never exceeds the remaining byte count it is given. -/
theorem initial_bmr_le (sde : StringDataEncoding) (r : Nat) :
    initial_bmr sde r ≤ r := by
  unfold initial_bmr
  split
  · split <;> omega
  · exact le_refl r

/-- `resolve_box_size` only shrinks the running bound `bmr`, and when it
reports a definite box size the bound equals that size. -/
theorem resolve_box_size_spec (sde : StringDataEncoding) (ctx : ProcCtx)
    (r : Nat) (o : Option Nat) (m : Nat)
    (h : resolve_box_size sde ctx r = PResult.ok (o, m)) :
    m ≤ r ∧ ∀ B, o = some B → m = B := by
  unfold resolve_box_size at h
  split at h
  · simp only [PResult.ok.injEq, Prod.mk.injEq] at h
    obtain ⟨ho, hm⟩ := h
    subst ho hm
    exact ⟨le_refl r, fun B hB => Option.noConfusion hB⟩
  · dsimp only at h
    split at h
    · exact PResult.noConfusion h
    · simp only [PResult.ok.injEq, Prod.mk.injEq] at h
      obtain ⟨ho, hm⟩ := h
      subst ho hm
      constructor
      · omega
      · intro B hB
        injection hB.symm with hB2
        omega
  · split at h
    · exact PResult.noConfusion h
    · exact PResult.noConfusion h
    · dsimp only at h
      split at h
      · exact PResult.noConfusion h
      · simp only [PResult.ok.injEq, Prod.mk.injEq] at h
        obtain ⟨ho, hm⟩ := h
        subst ho hm
        constructor
        · omega
        · intro B hB
          injection hB.symm with hB2
          omega

/-- The terminator scan when the first terminator byte sits at offset `L`
from the scan origin `q`: the scan stops there, reporting `L` bytes before
the terminator, with the cursor just past the terminator byte. -/
theorem scanTerm_found (b : List Nat) (bo : ByteOrder) (so q tc L : Nat)
    (hL : b[q + L]? = some tc) :
    ∀ (rem strsize : Nat), strsize ≤ L → L < strsize + rem →
      (∀ j v, strsize ≤ j → j < L → b[q + j]? = some v → v ≠ tc) →
      scanTerm rem (ContainerBuf.mk (BitBuffer.mk b (8 * (q + strsize)) bo) so) tc strsize =
        PResult.ok (L, ContainerBuf.mk (BitBuffer.mk b (8 * (q + L) + 8) bo) so) := by
  intro rem
  induction rem with
  | zero =>
    intro strsize h1 h2 _
    exact absurd h2 (by omega)
  | succ rem ih =>
    intro strsize h1 h2 hpre
    simp only [scanTerm]
    rcases eq_or_lt_of_le h1 with heq | hlt
    · subst heq
      rw [get_byte_aligned b bo so (q + strsize) tc hL]
      simp
    · have hqL : q + strsize < b.length := by
        have := (List.getElem?_eq_some_iff.mp hL).1
        omega
      have h0 : b[q + strsize]? = some (b[q + strsize]) :=
        List.getElem?_eq_some_iff.mpr ⟨hqL, rfl⟩
      rw [get_byte_aligned b bo so (q + strsize) _ h0]
      have hne : b[q + strsize] ≠ tc := hpre strsize _ (le_refl _) hlt h0
      dsimp only
      rw [if_pos (by simp [hne])]
      rw [show 8 * (q + strsize) + 8 = 8 * (q + (strsize + 1)) from by ring]
      exact ih (strsize + 1) hlt (by omega)
        (fun j v hj1 hj2 hjv => hpre j v (by omega) hj2 hjv)

/-- The terminator scan when no terminator occurs in the next `rem`
bytes: the scan consumes all of them and reports `strsize + rem`. -/
theorem scanTerm_notfound (b : List Nat) (bo : ByteOrder) (so q tc : Nat) :
    ∀ (rem strsize : Nat), q + strsize + rem ≤ b.length →
      (∀ j v, strsize ≤ j → j < strsize + rem → b[q + j]? = some v → v ≠ tc) →
      scanTerm rem (ContainerBuf.mk (BitBuffer.mk b (8 * (q + strsize)) bo) so) tc strsize =
        PResult.ok (strsize + rem,
          ContainerBuf.mk (BitBuffer.mk b (8 * (q + strsize + rem)) bo) so) := by
  intro rem
  induction rem with
  | zero =>
    intro strsize _ _
    simp [scanTerm]
  | succ rem ih =>
    intro strsize hlen hpre
    simp only [scanTerm]
    have hq : q + strsize < b.length := by omega
    have h0 : b[q + strsize]? = some (b[q + strsize]) :=
      List.getElem?_eq_some_iff.mpr ⟨hq, rfl⟩
    rw [get_byte_aligned b bo so (q + strsize) _ h0]
    have hne : b[q + strsize] ≠ tc := hpre strsize _ (le_refl _) (by omega) h0
    dsimp only
    rw [if_pos (by simp [hne])]
    rw [show 8 * (q + strsize) + 8 = 8 * (q + (strsize + 1)) from by ring]
    rw [ih (strsize + 1) (by omega)
      (fun j v hj1 hj2 hjv => hpre j v (by omega) (by omega) hjv)]
    rw [show strsize + 1 + rem = strsize + (rem + 1) from by ring,
      show q + (strsize + 1) + rem = q + strsize + (rem + 1) from by ring]

/-- The finishing step of `extract_string` on a byte-aligned buffer with a
definite box size `B`: reads `strsize` bytes from the aligned byte index,
decodes them as UTF-8, reports the box extent `8 * B` and parks the cursor
at the end of the box. -/
theorem string_finish_spec (sde : StringDataEncoding) (ctx : ProcCtx) (b : List Nat)
    (bo : ByteOrder) (so q strsize B : Nat)
    (henc : sde.encoding = strUTF8) (hlen : q + strsize ≤ b.length) :
    string_finish sde ctx (8 * q) so strsize (some B)
        (ContainerBuf.mk (BitBuffer.mk b (8 * q) bo) so) =
      PResult.ok ((Value.StringValue (fromUtf8Lossy ((b.drop q).take strsize)),
        ContainerPosition.mk so (8 * q) (8 * B) none),
        { ctx with cbuf := ContainerBuf.mk (BitBuffer.mk b (8 * q + 8 * B) bo) so }) := by
  unfold string_finish
  rw [get_bytes_ref_aligned b bo so q strsize hlen]
  dsimp only
  rw [if_pos (by simp [henc])]
  rfl

/-- C5: for a string encoded with a `TerminationChar tc` size policy
(UTF-8, byte-aligned start at byte index `q`, box resolution yielding
`(boxOpt, bmr)`): (a) when the first terminator lies at offset `L < bmr`,
the string is the `L` bytes before it, and the box size defaults to
`L + 1` (terminator included) when it was undefined; (b) when no
terminator occurs within `bmr` bytes and the box size is undefined,
extraction fails with a `DecodingError`; (c) when no terminator occurs
but the box size is definite, the `bmr` scanned bytes become the
string. -/
theorem extract_string_termchar (mdb : MissionDatabase) (evs : List CEvaluator)
    (pvl : ParameterValueList) (px : Option Nat) (b : List Nat) (bo : ByteOrder)
    (so q : Nat) (sde : StringDataEncoding) (tc : Nat)
    (boxOpt : Option Nat) (bmr : Nat)
    (hq : q ≤ b.length)
    (hsz : sde.size_in_bits = StringSize.TerminationChar tc)
    (henc : sde.encoding = strUTF8)
    (hbox : resolve_box_size sde
        (ProcCtx.mk mdb evs (ContainerBuf.mk (BitBuffer.mk b (8 * q) bo) so) pvl px)
        (initial_bmr sde (b.length - q)) = PResult.ok (boxOpt, bmr)) :
    (∀ L, L < bmr → b[q + L]? = some tc →
      (∀ j v, j < L → b[q + j]? = some v → v ≠ tc) →
      extract_string sde
          (ProcCtx.mk mdb evs (ContainerBuf.mk (BitBuffer.mk b (8 * q) bo) so) pvl px) =
        PResult.ok ((Value.StringValue (fromUtf8Lossy ((b.drop q).take L)),
          ContainerPosition.mk so (8 * q) (8 * (boxOpt.getD (L + 1))) none),
          ProcCtx.mk mdb evs
            (ContainerBuf.mk (BitBuffer.mk b (8 * q + 8 * (boxOpt.getD (L + 1))) bo) so)
            pvl px)) ∧
    ((∀ j v, j < bmr → b[q + j]? = some v → v ≠ tc) → boxOpt = none →
      extract_string sde
          (ProcCtx.mk mdb evs (ContainerBuf.mk (BitBuffer.mk b (8 * q) bo) so) pvl px) =
        PResult.error MdbError.DecodingError) ∧
    ((∀ j v, j < bmr → b[q + j]? = some v → v ≠ tc) → ∀ B, boxOpt = some B →
      extract_string sde
          (ProcCtx.mk mdb evs (ContainerBuf.mk (BitBuffer.mk b (8 * q) bo) so) pvl px) =
        PResult.ok ((Value.StringValue (fromUtf8Lossy ((b.drop q).take bmr)),
          ContainerPosition.mk so (8 * q) (8 * bmr) none),
          ProcCtx.mk mdb evs
            (ContainerBuf.mk (BitBuffer.mk b (8 * q + 8 * bmr) bo) so) pvl px)) := by
  have hspec := resolve_box_size_spec sde
      (ProcCtx.mk mdb evs (ContainerBuf.mk (BitBuffer.mk b (8 * q) bo) so) pvl px)
      (initial_bmr sde (b.length - q)) boxOpt bmr hbox
  have hbmr_le : bmr ≤ b.length - q := le_trans hspec.1 (initial_bmr_le sde _)
  refine ⟨?_, ?_, ?_⟩
  · intro L hLlt hterm hfirst
    have hlenL : q + L ≤ b.length := by
      have := (List.getElem?_eq_some_iff.mp hterm).1
      omega
    unfold extract_string
    dsimp only [ContainerBuf.get_position, BitBuffer.get_position,
      ContainerBuf.remaining_bytes, BitBuffer.remaining_bytes, BitBuffer.bitsize]
    rw [if_neg (by simp [Nat.mul_mod_right])]
    rw [show (b.length * 8 - 8 * q) / 8 = b.length - q from by omega]
    rw [hbox]
    dsimp only
    rw [hsz]
    dsimp only
    have hscan : scanTerm bmr (ContainerBuf.mk (BitBuffer.mk b (8 * q) bo) so) tc 0 =
        PResult.ok (L, ContainerBuf.mk (BitBuffer.mk b (8 * (q + L) + 8) bo) so) := by
      have h := scanTerm_found b bo so q tc L hterm bmr 0 (Nat.zero_le L) (by omega)
        (fun j v _ hj2 hjv => hfirst j v hj2 hjv)
      simpa using h
    rw [hscan]
    dsimp only
    cases boxOpt with
    | none =>
      dsimp only
      rw [if_neg (by simp only [beq_iff_eq]; omega)]
      dsimp only [ContainerBuf.set_position, BitBuffer.set_position]
      rw [string_finish_spec sde
        (ProcCtx.mk mdb evs (ContainerBuf.mk (BitBuffer.mk b (8 * q) bo) so) pvl px)
        b bo so q L (L + 1) henc hlenL]
      rfl
    | some B =>
      dsimp only [ContainerBuf.set_position, BitBuffer.set_position]
      rw [string_finish_spec sde
        (ProcCtx.mk mdb evs (ContainerBuf.mk (BitBuffer.mk b (8 * q) bo) so) pvl px)
        b bo so q L B henc hlenL]
      rfl
  · intro hall hnone
    subst hnone
    unfold extract_string
    dsimp only [ContainerBuf.get_position, BitBuffer.get_position,
      ContainerBuf.remaining_bytes, BitBuffer.remaining_bytes, BitBuffer.bitsize]
    rw [if_neg (by simp [Nat.mul_mod_right])]
    rw [show (b.length * 8 - 8 * q) / 8 = b.length - q from by omega]
    rw [hbox]
    dsimp only
    rw [hsz]
    dsimp only
    have hscan : scanTerm bmr (ContainerBuf.mk (BitBuffer.mk b (8 * q) bo) so) tc 0 =
        PResult.ok (bmr, ContainerBuf.mk (BitBuffer.mk b (8 * (q + bmr)) bo) so) := by
      have h := scanTerm_notfound b bo so q tc bmr 0 (by omega)
        (fun j v _ hj2 hjv => hall j v (by omega) hjv)
      simpa using h
    rw [hscan]
    dsimp only
    rw [if_pos (by simp)]
  · intro hall B hB
    have hBeq : bmr = B := hspec.2 B hB
    subst hB
    unfold extract_string
    dsimp only [ContainerBuf.get_position, BitBuffer.get_position,
      ContainerBuf.remaining_bytes, BitBuffer.remaining_bytes, BitBuffer.bitsize]
    rw [if_neg (by simp [Nat.mul_mod_right])]
    rw [show (b.length * 8 - 8 * q) / 8 = b.length - q from by omega]
    rw [hbox]
    dsimp only
    rw [hsz]
    dsimp only
    have hscan : scanTerm bmr (ContainerBuf.mk (BitBuffer.mk b (8 * q) bo) so) tc 0 =
        PResult.ok (bmr, ContainerBuf.mk (BitBuffer.mk b (8 * (q + bmr)) bo) so) := by
      have h := scanTerm_notfound b bo so q tc bmr 0 (by omega)
        (fun j v _ hj2 hjv => hall j v (by omega) hjv)
      simpa using h
    rw [hscan]
    dsimp only
    rw [← hBeq]
    dsimp only [ContainerBuf.set_position, BitBuffer.set_position]
    rw [string_finish_spec sde
      (ProcCtx.mk mdb evs (ContainerBuf.mk (BitBuffer.mk b (8 * q) bo) so) pvl px)
      b bo so q bmr bmr henc (by omega)]

/-- A concrete terminated-string encoding: UTF-8, terminator byte 0, no
box size, no maximum. -/
def sdeC5 : StringDataEncoding :=
  StringDataEncoding.mk (StringSize.TerminationChar 0) StringBoxSize.Undefined none strUTF8

/-- An empty mission database (enough context for a lone string read). -/
def mdbC5 : MissionDatabase := MissionDatabase.mk [] [] [] [] []

theorem extract_string_termchar_witness :
    extract_string sdeC5
        (ProcCtx.mk mdbC5 []
          (ContainerBuf.mk (BitBuffer.mk [97, 98, 0, 255] (8 * 0) ByteOrder.BigEndian) 0)
          ParameterValueList.new none) =
      PResult.ok ((Value.StringValue [97, 98], ContainerPosition.mk 0 (8 * 0) 24 none),
        ProcCtx.mk mdbC5 []
          (ContainerBuf.mk (BitBuffer.mk [97, 98, 0, 255] 24 ByteOrder.BigEndian) 0)
          ParameterValueList.new none) := by
  have h := extract_string_termchar mdbC5 [] ParameterValueList.new none
    [97, 98, 0, 255] ByteOrder.BigEndian 0 0 sdeC5 0 none 4
    (by decide) rfl rfl rfl
  exact h.1 2 (by decide) (by decide)
    (by intro j v hj hv; interval_cases j <;> (simp at hv; omega))

end XtceRs
